import Mathlib

/-!
Verification of the content-acquisition engine of the skills-generator
repository: the URL validator (`validateUrl` / `validateUrls`), the
budget-bounded crawler (`recursiveCrawl` and its link classification),
and the topic-keyed result cache (`getCachedContent` / `cacheContent`).

The TypeScript sources are embedded shallowly:
* network I/O (`fetch`) is an oracle (`Net`) mapping a URL and an attempt
  index to an outcome;
* the `Promise`-based control flow is linearized (awaited calls run in
  program order; `Promise.all` members are linearized left to right);
* wall-clock time (`Date.now()`) is a `Nat` parameter that is constant
  during a single call;
* JavaScript strings are Lean `String`s and the JS string operations used
  by the source are re-implemented over `List Char`;
* the WHATWG `URL` platform class is modelled for the simple
  `http(s)://host/path` URLs the code manipulates (no userinfo, ports kept
  in the host, query/fragment stripped from `pathname`).
-/

namespace SkillsGen

/-! ## JS string primitives (models of the platform string API) -/

/-- Model of JS `String.prototype.startsWith` over char lists. -/
def hasPrefixCL : List Char → List Char → Bool
  | _, [] => true
  | [], _ :: _ => false
  | c :: cs, p :: ps => c = p && hasPrefixCL cs ps

/-- Model of JS `String.prototype.includes` over char lists
(`containsCL pat s` is true when `pat` occurs in `s`). -/
def containsCL (pat : List Char) : List Char → Bool
  | [] => hasPrefixCL [] pat
  | c :: cs => hasPrefixCL (c :: cs) pat || containsCL pat cs

/-- Model of JS `String.prototype.startsWith`. -/
def jsStartsWith (s pat : String) : Bool := hasPrefixCL s.data pat.data

/-- Model of JS `String.prototype.endsWith`. -/
def jsEndsWith (s pat : String) : Bool := hasPrefixCL s.data.reverse pat.data.reverse

/-- Model of JS `String.prototype.includes`. -/
def jsContains (s pat : String) : Bool := containsCL pat.data s.data

/-- Model of JS `String.prototype.toLowerCase` (ASCII, which is all the
source feeds it). -/
def jsToLower (s : String) : String := String.mk (s.data.map Char.toLower)

/-- Model of JS `String.prototype.trim`. -/
def jsTrim (s : String) : String :=
  String.mk (((s.data.dropWhile Char.isWhitespace).reverse.dropWhile Char.isWhitespace).reverse)

/-- Model of JS `String.prototype.length` (all strings involved are ASCII,
so UTF-16 units coincide with chars). -/
def jsLength (s : String) : Nat := s.data.length

/-- Model of JS `String.prototype.split` with a single-character separator. -/
def splitOnChar (sep : Char) : List Char → List (List Char)
  | [] => [[]]
  | c :: cs =>
    let r := splitOnChar sep cs
    if c = sep then [] :: r
    else
      match r with
      | h :: t => (c :: h) :: t
      | [] => [[c]]

/-- Model of the JS string-or-default idiom `a || b` for an optional string:
`undefined` and the empty string are falsy. -/
def jsOrStr : Option String → String → String
  | none, b => b
  | some s, b => if s = "" then b else s

/-! ## URL model (platform `new URL(...)`, restricted)

The source relies on the WHATWG `URL` class only through `origin`,
`hostname` and `pathname` of plain `http(s)://host/path?query#frag`
URLs.  `parseUrl` models exactly that fragment: it succeeds on strings
beginning with `http://` or `https://` followed by a nonempty host, and
returns the lowercased host and the pathname with query/fragment
stripped.  `new URL(s)` throwing is modelled by `none`. -/

structure UrlParts where
  scheme : String
  host : String
  path : String
  deriving Repr, DecidableEq

def notHostEnd (c : Char) : Bool := !(c = '/' || c = '?' || c = '#')

def notPathEnd (c : Char) : Bool := !(c = '?' || c = '#')

def parseUrlCore (scheme : String) (rest : List Char) : Option UrlParts :=
  let hostChars := rest.takeWhile notHostEnd
  let tail := rest.dropWhile notHostEnd
  if hostChars.isEmpty then none
  else
    let path :=
      match tail with
      | [] => "/"
      | '/' :: _ => String.mk (tail.takeWhile notPathEnd)
      | _ => "/"
    some { scheme := scheme, host := String.mk (hostChars.map Char.toLower), path := path }

def parseUrl (s : String) : Option UrlParts :=
  if jsStartsWith s "http://" then parseUrlCore "http" (s.data.drop 7)
  else if jsStartsWith s "https://" then parseUrlCore "https" (s.data.drop 8)
  else none

/-- Model of `URL.origin` for a parsed URL. -/
def origin (u : UrlParts) : String := u.scheme ++ "://" ++ u.host

/-- Model of `new URL(location, origin).href` for the relative locations the
validator resolves (the location is joined onto the origin). -/
def urlJoin (originStr location : String) : String :=
  if jsStartsWith location "/" then originStr ++ location else originStr ++ "/" ++ location

/-! ## Validator data model (src/unnamed/part_006, lines 244-578) -/

structure ValidationResult where
  url : String
  valid : Bool
  status : Nat
  finalUrl : Option String := none
  error : Option String := none
  checkedAt : Nat
  deriving Repr, DecidableEq

structure ValidationOptions where
  concurrency : Option Nat := none
  timeout : Option Nat := none
  maxRedirects : Option Nat := none
  retries : Option Nat := none
  deriving Repr, DecidableEq

/-- Embedding of `DEFAULT_CONFIG` of part_006: concurrency 10, timeout 5000,
maxRedirects 3, retries 1.  Merging `{ ...DEFAULT_CONFIG, ...options }`
is modelled by `Option.getD` against these values. -/
def DEFAULT_CONCURRENCY : Nat := 10
def DEFAULT_MAX_REDIRECTS : Nat := 3
def DEFAULT_RETRIES : Nat := 1

def CACHE_TTL : Nat := 5 * 60 * 1000
def MAX_CACHE_SIZE : Nat := 1000

/-- The validation cache: a JS `Map` from URL to `{ result, expiresAt }`,
modelled as an insertion-ordered association list with unique keys. -/
abbrev VCache := List (String × (ValidationResult × Nat))

def cacheLookup (m : VCache) (k : String) : Option (ValidationResult × Nat) :=
  (m.find? (fun p => p.1 == k)).map (fun p => p.2)

/-- JS `Map.prototype.set`: replaces in place when the key is present
(keeping its insertion position), appends otherwise. -/
def mapSet (m : VCache) (k : String) (v : ValidationResult × Nat) : VCache :=
  if m.any (fun p => p.1 == k) then m.map (fun p => if p.1 == k then (k, v) else p)
  else m ++ [(k, v)]

/-- JS `Map.prototype.delete`. -/
def mapDelete (m : VCache) (k : String) : VCache := m.filter (fun p => !(p.1 == k))

/-- Embedding of `cleanCache` of part_006: drop every entry whose `expiresAt < now`. -/
def cleanCache (m : VCache) (now : Nat) : VCache :=
  m.filter (fun p => !(decide (p.2.2 < now)))

/-- Embedding of `getCached` of part_006: return the entry when it has not expired,
otherwise delete the key and return `null`.  The mutation of the map is
made explicit in the returned cache. -/
def getCached (m : VCache) (url : String) (now : Nat) : Option ValidationResult × VCache :=
  match cacheLookup m url with
  | some (r, exp) => if now < exp then (some r, m) else (none, mapDelete m url)
  | none => (none, mapDelete m url)

/-- Embedding of `setCache` of part_006: when the map is at capacity, sweep expired
entries and then (if still at capacity) delete the oldest
`size - MAX_CACHE_SIZE + 1` keys before inserting (in a key-unique map,
deleting the first n keys is dropping the first n entries). -/
def setCache (m : VCache) (url : String) (r : ValidationResult) (now : Nat) : VCache :=
  let m1 :=
    if MAX_CACHE_SIZE ≤ m.length then
      let mc := cleanCache m now
      if MAX_CACHE_SIZE ≤ mc.length then mc.drop (mc.length - MAX_CACHE_SIZE + 1) else mc
    else m
  mapSet m1 url (r, now + CACHE_TTL)

/-! ## The network oracle -/

/-- Outcome of one `fetch` call, as discriminated by the `catch` block of
`validateUrl` (part_006 lines 468-491):
* `resp`: the promise resolved with a status and optional `Location` header;
* `netError msg`: a `TypeError` whose message mentions fetch (retryable);
* `abortError`: an `AbortError` — the enforced timeout (never retried);
* `httpFail msg`: another `Error` whose message mentions fetch (retryable);
* `unexpected msg`: anything else (never retried). -/
inductive FetchOutcome where
  | resp (status : Nat) (location : Option String)
  | netError (msg : String)
  | abortError
  | httpFail (msg : String)
  | unexpected (msg : String)
  deriving Repr, DecidableEq

def FetchOutcome.isErr : FetchOutcome → Bool
  | .resp _ _ => false
  | _ => true

/-- The network: what each `fetch` returns for a URL at a given 0-based
attempt index of the retry loop.  `head` is the HEAD probe, `rangeGet`
the ranged-GET fallback issued on 405/501. -/
structure Net where
  head : String → Nat → FetchOutcome
  rangeGet : String → Nat → FetchOutcome

/-- Validator state threaded through a run: the module-level cache and a
trace of the URLs passed to `fetch` (one entry per network attempt). -/
structure VState where
  cache : VCache
  log : List String
  deriving Repr, DecidableEq

/-! ## validateUrl (part_006 lines 340-504) -/

/-- Resolution of a redirect `Location` (part_006 lines 411-422): absolute
locations are kept; relative ones are resolved against the request URL's
origin; a parse failure keeps the raw location. -/
def resolveRedirect (url location : String) : String :=
  if jsStartsWith location "http" then location
  else
    match parseUrl url with
    | some base => urlJoin (origin base) location
    | none => location

/-- One `fetch` of the attempt loop, including the ranged-GET fallback on
405/501 (part_006 lines 360-394).  Errors thrown by the fallback GET are
rethrown into the same catch, hence returned as-is. -/
def doFetch (net : Net) (url : String) (attempt : Nat) (log : List String) :
    FetchOutcome × List String :=
  match net.head url attempt with
  | .resp s loc =>
    if s = 405 ∨ s = 501 then (net.rangeGet url attempt, log ++ [url, url])
    else (.resp s loc, log ++ [url])
  | e => (e, log ++ [url])

/-- The result built after the retry loop exhausts or breaks
(part_006 lines 493-503). -/
def mkFailResult (url : String) (now : Nat) (lastError : Option String) : ValidationResult :=
  { url := url, valid := false, status := 0,
    error := some (lastError.getD "Request failed"), checkedAt := now }

/-- The retry loop of `validateUrl` (part_006 lines 355-491).
`recurse = some follow` models `maxRedirects > 0` (follow is the recursive
`validateUrl` call at budget `maxRedirects - 1`); `remaining` counts the
attempts left (`retries + 1` at entry), `attempt` the 0-based loop index. -/
def runAttempts (net : Net) (now : Nat) (url : String)
    (recurse : Option (String → VState → ValidationResult × VState)) (retries : Nat) :
    Nat → Nat → Option String → VState → ValidationResult × VState
  | 0, _, lastError, st =>
    let r := mkFailResult url now lastError
    (r, { st with cache := setCache st.cache url r now })
  | remaining + 1, attempt, _lastError, st =>
    match doFetch net url attempt st.log with
    | (.resp status loc, log1) =>
      let st1 : VState := { st with log := log1 }
      if 300 ≤ status ∧ status < 400 then
        if loc = none ∨ loc = some "" then
          let r : ValidationResult :=
            { url := url, valid := false, status := status,
              error := some "Redirect with no Location header", checkedAt := now }
          (r, { st1 with cache := setCache st1.cache url r now })
        else
          let location := (loc.getD "")
          let redirectUrl := resolveRedirect url location
          match recurse with
          | some follow =>
            let res := follow redirectUrl st1
            let rr := res.1
            let st2 := res.2
            let r : ValidationResult :=
              { url := url, valid := rr.valid, status := status,
                finalUrl := some (jsOrStr rr.finalUrl redirectUrl),
                error := rr.error, checkedAt := now }
            (r, { st2 with cache := setCache st2.cache url r now })
          | none =>
            let r : ValidationResult :=
              { url := url, valid := false, status := status,
                error := some "Too many redirects", checkedAt := now }
            (r, { st1 with cache := setCache st1.cache url r now })
      else
        let valid := decide (200 ≤ status ∧ status < 300)
        let r : ValidationResult :=
          { url := url, valid := valid, status := status,
            error := if valid then none else some ("HTTP " ++ toString status),
            checkedAt := now }
        (r, { st1 with cache := setCache st1.cache url r now })
    | (.netError msg, log1) =>
      runAttempts net now url recurse retries remaining (attempt + 1)
        (some ("Network error: " ++ msg)) { st with log := log1 }
    | (.abortError, log1) =>
      let r := mkFailResult url now (some "Request timeout")
      (r, { cache := setCache st.cache url r now, log := log1 })
    | (.httpFail msg, log1) =>
      runAttempts net now url recurse retries remaining (attempt + 1)
        (some ("HTTP request failed: " ++ msg)) { st with log := log1 }
    | (.unexpected msg, log1) =>
      let r := mkFailResult url now (some msg)
      (r, { cache := setCache st.cache url r now, log := log1 })

/-- Body of `validateUrl` after option merging: cache lookup, then the
retry loop. -/
def validateStep (net : Net) (now retries : Nat)
    (recurse : Option (String → VState → ValidationResult × VState))
    (url : String) (st : VState) : ValidationResult × VState :=
  match getCached st.cache url now with
  | (some r, c) => (r, { st with cache := c })
  | (none, c) => runAttempts net now url recurse retries (retries + 1) 0 none { st with cache := c }

/-- Embedding of `validateUrl` at a merged redirect budget `mr`: the recursive call of
the source passes `{ ...options, maxRedirects: maxRedirects - 1 }`, so the
merged retry count is unchanged and the budget decreases by one, here made
structural.  `recurse = none` at budget 0 models the `maxRedirects > 0`
guard. -/
def validateUrlCore (net : Net) (now retries : Nat) : Nat → String → VState →
    ValidationResult × VState
  | 0 => validateStep net now retries none
  | m + 1 => validateStep net now retries (some (validateUrlCore net now retries m))

/-- Embedding of `validateUrl` of part_006 (lines 340-504).  The returned state carries
the updated cache and the fetch trace. -/
def validateUrl (net : Net) (now : Nat) (url : String) (opts : ValidationOptions)
    (st : VState) : ValidationResult × VState :=
  validateUrlCore net now (opts.retries.getD DEFAULT_RETRIES)
    (opts.maxRedirects.getD DEFAULT_MAX_REDIRECTS) url st

/-! ## validateUrls (part_006 lines 526-577) -/

/-- Linearization of `Promise.all(batch.map(url => validateUrl(url, options)))`:
batch members run left to right, threading the shared cache. -/
def validateSeq (net : Net) (now : Nat) (opts : ValidationOptions) :
    List String → VState → List ValidationResult × VState
  | [], st => ([], st)
  | u :: us, st =>
    let res := validateUrl net now u opts st
    let rest := validateSeq net now opts us res.2
    (res.1 :: rest.1, rest.2)

/-- The batching loop `for (let i = 0; i < urls.length; i += concurrency)`,
with an explicit step bound making the recursion structural: each
iteration handles `urls.slice(i, i + concurrency)` and advances by
`concurrency`.  With `conc ≥ 1` a `fuel` of the list length is never
exhausted, since each step consumes at least one URL.  (For `conc = 0` the
source loop never terminates; the model is only used with positive
concurrency.) -/
def validateBatchesAux (net : Net) (now : Nat) (opts : ValidationOptions) (conc : Nat) :
    Nat → List String → VState → List ValidationResult × VState
  | _, [], st => ([], st)
  | 0, _ :: _, st => ([], st)
  | fuel + 1, u :: us, st =>
    let batch := validateSeq net now opts ((u :: us).take conc) st
    let rest := validateBatchesAux net now opts conc fuel ((u :: us).drop conc) batch.2
    (batch.1 ++ rest.1, rest.2)

def validateBatches (net : Net) (now : Nat) (opts : ValidationOptions) (conc : Nat)
    (urls : List String) (st : VState) : List ValidationResult × VState :=
  validateBatchesAux net now opts conc urls.length urls st

/-- Embedding of `validateUrls` of part_006 (lines 526-577): sweep expired cache
entries, then process the URLs in sequential chunks of the configured
concurrency. -/
def validateUrls (net : Net) (now : Nat) (urls : List String) (opts : ValidationOptions)
    (st : VState) : List ValidationResult × VState :=
  let conc := opts.concurrency.getD DEFAULT_CONCURRENCY
  let st1 : VState := { st with cache := cleanCache st.cache now }
  match urls with
  | [] => ([], st1)
  | u :: us => validateBatches net now opts conc (u :: us) st1

/-! ## Crawler data model (src/lib/crawler.ts) -/

/-- Embedding of `ScrapedContent` of src/types/index.ts.  The optional booleans
`isPaywalled` / `fallbackUsed` are falsy when absent, so they are plain
`Bool`s here. -/
structure ScrapedContent where
  url : String
  markdown : String
  success : Bool
  error : Option String := none
  isPaywalled : Bool := false
  fallbackUsed : Bool := false
  crawledAt : String := ""
  deriving Repr, DecidableEq

/-- The external Fetcher collaborator (`scrapeUrls` of
src/lib/hyperbrowser.ts), an oracle producing one document batch per
requested URL list. -/
structure Fetcher where
  scrape : List String → List ScrapedContent

def MAX_PAGES_PER_URL : Nat := 8
def MAX_TOTAL_URLS : Nat := 25

def VALUABLE_PATH_KEYWORDS : List String :=
  ["/api", "/reference", "/guide", "/tutorial", "/docs", "/documentation",
   "/getting-started", "/quickstart", "/examples", "/configuration", "/setup",
   "/install", "/sdk", "/cli", "/commands", "/overview", "/introduction",
   "/concepts", "/basics", "/advanced", "/authentication", "/models",
   "/actions", "/connections", "/deployment"]

def EXCLUDED_EXTENSIONS : List String :=
  [".svg", ".png", ".jpg", ".jpeg", ".gif", ".ico", ".webp", ".css", ".js",
   ".json", ".xml", ".pdf", ".zip", ".tar", ".gz", ".mp4", ".mp3", ".woff",
   ".woff2", ".ttf", ".eot"]

def EXCLUDED_PATTERNS : List String :=
  ["/.vite/", "/assets/", "/static/", "/_next/", "/images/", "/fonts/",
   "/media/", "#", "?"]

/-! ### Link extraction (crawler.ts `extractLinks`, lines 76-127)

The two regex scans (`/\[([^\]]+)\]\(([^)]+)\)/g` and
`/href=["']([^"']+)["']/g`) are leftmost-match scans: an anchored match is
attempted at each position, the scan advances past a successful match and
by one character otherwise.  Both character classes exclude their own
terminator, so an anchored match is deterministic: the capture runs to the
first terminator character. -/

/-- Split at the first character satisfying `p`:
`(before, separator, after)`. -/
def splitAtFirst (p : Char → Bool) : List Char → Option (List Char × Char × List Char)
  | [] => none
  | c :: rest =>
    if p c then some ([], c, rest)
    else
      match splitAtFirst p rest with
      | some (pre, q, post) => some (c :: pre, q, post)
      | none => none

/-- Anchored match of `\[([^\]]+)\]\(([^)]+)\)`, returning the captured
URL and the remainder after the match. -/
def tryMdMatch : List Char → Option (String × List Char)
  | '[' :: rest =>
    match splitAtFirst (fun c => c = ']') rest with
    | some (text, _, rest1) =>
      if text.isEmpty then none
      else
        match rest1 with
        | '(' :: rest2 =>
          match splitAtFirst (fun c => c = ')') rest2 with
          | some (u, _, rest3) => if u.isEmpty then none else some (String.mk u, rest3)
          | none => none
        | _ => none
    | none => none
  | _ => none

def isQuoteChar (c : Char) : Bool := c = '"' || c = '\''

/-- Anchored match of `href=["']([^"']+)["']`. -/
def tryHrefMatch : List Char → Option (String × List Char)
  | 'h' :: 'r' :: 'e' :: 'f' :: '=' :: q :: rest =>
    if isQuoteChar q then
      match splitAtFirst isQuoteChar rest with
      | some (content, _, rest2) =>
        if content.isEmpty then none else some (String.mk content, rest2)
      | none => none
    else none
  | _ => none

/-- The `regex.exec` loop: repeatedly attempt an anchored match, advancing
past a match or by one character.  `fuel` bounds the number of steps; with
`fuel = s.length` it never runs out, since every step consumes at least
one character. -/
def scanWith (tryMatch : List Char → Option (String × List Char)) :
    Nat → List Char → List String
  | 0, _ => []
  | _, [] => []
  | fuel + 1, c :: rest =>
    match tryMatch (c :: rest) with
    | some (u, rest1) => u :: scanWith tryMatch fuel rest1
    | none => scanWith tryMatch fuel rest

/-- First-occurrence deduplication (`[...new Set(links)]`): a JS `Set` is
built by inserting each element in order, skipping those already seen. -/
def dedupAux (seen : List String) : List String → List String
  | [] => []
  | x :: xs => if seen.contains x then dedupAux seen xs else x :: dedupAux (seen ++ [x]) xs

def dedupFirst (l : List String) : List String := dedupAux [] l

/-- Relative-URL handling shared by both scans (crawler.ts lines 89-96 and
111-118): a `/`-rooted (but not `//`) URL is resolved against the base
URL's origin; a base parse failure skips the link. -/
def resolveRelative (baseUrl u : String) : Option String :=
  if jsStartsWith u "/" && !(jsStartsWith u "//") then
    (parseUrl baseUrl).map (fun b => origin b ++ u)
  else some u

/-- Keep only http(s) URLs (crawler.ts lines 99 and 120). -/
def keepHttp (u : String) : Option String :=
  if jsStartsWith u "http://" || jsStartsWith u "https://" then some u else none

def processMdLink (baseUrl raw : String) : Option String :=
  let u := jsTrim raw
  if u = "" then none else (resolveRelative baseUrl u).bind keepHttp

def processHrefLink (baseUrl raw : String) : Option String :=
  let u := jsTrim raw
  if u = "" || jsStartsWith u "#" || jsStartsWith u "javascript:" then none
  else (resolveRelative baseUrl u).bind keepHttp

/-- Embedding of `extractLinks` of crawler.ts (lines 76-127): markdown-link matches,
then href matches, processed and deduplicated in order. -/
def extractLinks (markdown baseUrl : String) : List String :=
  let mdRaw := scanWith tryMdMatch markdown.data.length markdown.data
  let hrefRaw := scanWith tryHrefMatch markdown.data.length markdown.data
  dedupFirst (mdRaw.filterMap (processMdLink baseUrl) ++ hrefRaw.filterMap (processHrefLink baseUrl))

/-- Embedding of `isExcludedUrl` of crawler.ts (lines 129-147). -/
def isExcludedUrl (url : String) : Bool :=
  let lowerUrl := jsToLower url
  EXCLUDED_EXTENSIONS.any (fun ext => jsEndsWith lowerUrl ext)
    || EXCLUDED_PATTERNS.any (fun pat => jsContains lowerUrl pat)

/-- Embedding of `isValuableLink` of crawler.ts (lines 149-187): not excluded, and the
(lowercased) path either contains a documentation keyword or ends in a
plausible content slug.  A URL-parse failure is `false`. -/
def isValuableLink (url : String) : Bool :=
  if isExcludedUrl url then false
  else
    let lowerUrl := jsToLower url
    match parseUrl lowerUrl with
    | none => false
    | some u =>
      let path := u.path
      if VALUABLE_PATH_KEYWORDS.any (fun kw => jsContains path kw) then true
      else if 1 < jsLength path && path ≠ "/" then
        let segments := (splitOnChar '/' path.data).filter (fun seg => !seg.isEmpty)
        match segments.getLast? with
        | some lastSegment =>
          !(containsCL ['.'] lastSegment) && 2 < lastSegment.length && lastSegment.length < 50
        | none => false
      else false

/-- Embedding of `isSameDomain` of crawler.ts (lines 189-197). -/
def isSameDomain (url1 url2 : String) : Bool :=
  match parseUrl url1, parseUrl url2 with
  | some a, some b => a.host == b.host
  | _, _ => false

def COMMON_DOC_PATHS : List String :=
  ["/guides", "/guide", "/api", "/reference", "/docs", "/documentation",
   "/getting-started", "/quickstart", "/tutorial", "/tutorials", "/examples",
   "/concepts", "/basics", "/overview", "/introduction", "/authentication",
   "/configuration", "/installation", "/setup"]

/-- Embedding of `generateCommonDocPaths` of crawler.ts (lines 200-231). -/
def generateCommonDocPaths (baseUrl : String) : List String :=
  match parseUrl baseUrl with
  | some u => COMMON_DOC_PATHS.map (fun p => origin u ++ p)
  | none => []

/-! ### recursiveCrawl (crawler.ts lines 233-332) -/

/-- Per-crawl mutable state: `allUrls` and `crawledUrls` are JS `Set`s,
modelled as insertion-ordered duplicate-free lists. -/
structure CrawlState where
  allUrls : List String
  crawledUrls : List String
  results : List ScrapedContent
  paywalledUrls : List String
  deriving Repr, DecidableEq

/-- Embedding of `Set.prototype.add`. -/
def setAdd (s : List String) (x : String) : List String :=
  if s.contains x then s else s ++ [x]

/-- The common-doc-path fallback loop (crawler.ts lines 286-293): enqueue
each path that is not crawled, not queued, while the URL set is below
`MAX_TOTAL_URLS`. -/
def addCommonPaths (crawled : List String) (acc : List String) (paths : List String) :
    List String :=
  paths.foldl
    (fun acc p =>
      if !(crawled.contains p) && !(acc.contains p) && acc.length < MAX_TOTAL_URLS then
        acc ++ [p]
      else acc)
    acc

/-- Processing of one phase-1 document (crawler.ts lines 256-297): record
it as crawled; skip paywalled documents; for successful nonempty documents
keep the content, enqueue up to `MAX_PAGES_PER_URL` valuable same-domain
links, and fall back to common doc paths when fewer than 3 valuable links
were found. -/
def processPhase1 (st : CrawlState) (c : ScrapedContent) : CrawlState :=
  let st := { st with crawledUrls := setAdd st.crawledUrls c.url }
  if c.isPaywalled then { st with paywalledUrls := st.paywalledUrls ++ [c.url] }
  else if c.success && 0 < jsLength c.markdown then
    let st := { st with results := st.results ++ [c] }
    let extractedLinks := extractLinks c.markdown c.url
    let valuableLinks := extractedLinks.filter
      (fun link => isSameDomain link c.url && isValuableLink link
        && !(st.crawledUrls.contains link) && !(st.allUrls.contains link))
    let linksToAdd := valuableLinks.take MAX_PAGES_PER_URL
    let st := { st with allUrls := linksToAdd.foldl setAdd st.allUrls }
    if valuableLinks.length < 3 then
      { st with allUrls := addCommonPaths st.crawledUrls st.allUrls (generateCommonDocPaths c.url) }
    else st
  else st

/-- Phase 1 of `recursiveCrawl` (crawler.ts lines 237-299): seed the URL
set, scrape the first (up to) five seeds, and process each returned
document in order. -/
def crawlPhase1 (fetch : Fetcher) (initialUrls : List String) : CrawlState :=
  let st0 : CrawlState :=
    { allUrls := initialUrls.foldl setAdd [], crawledUrls := [], results := [],
      paywalledUrls := [] }
  let initialBatch := initialUrls.take 5
  (fetch.scrape initialBatch).foldl processPhase1 st0

/-- The phase-2 fetch list (crawler.ts line 302): queued but not yet
visited. -/
def phase2Urls (st : CrawlState) : List String :=
  st.allUrls.filter (fun u => !(st.crawledUrls.contains u))

/-- Processing of one phase-2 document (crawler.ts lines 311-318): keep
successful documents longer than 100 characters, record paywalled ones. -/
def processPhase2 (st : CrawlState) (c : ScrapedContent) : CrawlState :=
  if c.isPaywalled then { st with paywalledUrls := st.paywalledUrls ++ [c.url] }
  else if c.success && 100 < jsLength c.markdown then { st with results := st.results ++ [c] }
  else st

/-- Embedding of `recursiveCrawl` of crawler.ts (lines 233-332).  The unused `topic`
parameter is dropped; the `_paywalledUrls` side-channel attached to the
first result is returned separately; the phase-2 `try/catch` cannot fire
because the modelled Fetcher is total. -/
def recursiveCrawl (fetch : Fetcher) (initialUrls : List String) :
    List ScrapedContent × List String :=
  let st1 := crawlPhase1 fetch initialUrls
  let additionalUrls := phase2Urls st1
  let st2 :=
    if additionalUrls.isEmpty then st1
    else (fetch.scrape additionalUrls).foldl processPhase2 st1
  (st2.results, st2.paywalledUrls)

/-! ## Topic result cache (crawler.ts lines 349-445)

The `.cache` directory of JSON files is modelled as an association list
from cache key to parsed record; `JSON.stringify`/`JSON.parse` round-trips
are the identity.  ISO-8601 timestamp strings compare lexicographically in
chronological order, so timestamps are `Nat`s and the string comparison
`now > data.expiresAt` is `expiresAt < now`.  The `md5` digest of the
`crypto` module is an abstract `hashFn` parameter. -/

structure CachedContent where
  topic : String
  urls : List String
  content : List ScrapedContent
  cachedAt : Nat
  expiresAt : Nat
  deriving Repr, DecidableEq

def CACHE_TTL_MS : Nat := 24 * 60 * 60 * 1000

abbrev TopicStore := List (String × CachedContent)

def storeGet (s : TopicStore) (k : String) : Option CachedContent :=
  (s.find? (fun p => p.1 == k)).map (fun p => p.2)

def storeSet (s : TopicStore) (k : String) (v : CachedContent) : TopicStore :=
  if s.any (fun p => p.1 == k) then s.map (fun p => if p.1 == k then (k, v) else p)
  else s ++ [(k, v)]

def storeDelete (s : TopicStore) (k : String) : TopicStore :=
  s.filter (fun p => !(p.1 == k))

/-- The normalization inside `generateCacheKey` (crawler.ts line 363):
lowercase, trim, collapse whitespace runs to single spaces
(`replace(/\s+/g, " ")`). -/
def collapseWs : Bool → List Char → List Char
  | _, [] => []
  | prevWs, c :: rest =>
    if c.isWhitespace then
      if prevWs then collapseWs true rest else ' ' :: collapseWs true rest
    else c :: collapseWs false rest

def normalizeTopic (topic : String) : String :=
  String.mk (collapseWs false (jsTrim (jsToLower topic)).data)

/-- Embedding of `generateCacheKey` of crawler.ts (lines 362-365); the md5 hex digest is
the abstract `hashFn`. -/
def generateCacheKey (hashFn : String → String) (topic : String) : String :=
  hashFn (normalizeTopic topic)

/-- Embedding of `getCachedContent` of crawler.ts (lines 367-401): a missing file is a
miss; an expired record (`now > expiresAt`) is removed and reported as a
miss; otherwise the parsed record is returned. -/
def getCachedContent (hashFn : String → String) (now : Nat) (store : TopicStore)
    (topic : String) : Option CachedContent × TopicStore :=
  let key := generateCacheKey hashFn topic
  match storeGet store key with
  | none => (none, store)
  | some data =>
    if data.expiresAt < now then (none, storeDelete store key)
    else (some data, store)

/-- Embedding of `cacheContent` of crawler.ts (lines 403-434): write the full record
with a 24-hour expiry, overwriting any previous record under the key. -/
def cacheContent (hashFn : String → String) (now : Nat) (store : TopicStore)
    (topic : String) (urls : List String) (content : List ScrapedContent) : TopicStore :=
  let key := generateCacheKey hashFn topic
  storeSet store key
    { topic := topic, urls := urls, content := content, cachedAt := now,
      expiresAt := now + CACHE_TTL_MS }

/-! ## Lemmas: the validation cache map -/

theorem cacheLookup_mapSet_self (m : VCache) (k : String) (v : ValidationResult × Nat) :
    cacheLookup (mapSet m k v) k = some v := by
  unfold mapSet cacheLookup
  by_cases h : m.any (fun p => p.1 == k)
  · simp only [h, if_true, List.find?_map]
    have hpred : ((fun p : String × (ValidationResult × Nat) => p.1 == k) ∘
        (fun p => if p.1 == k then (k, v) else p))
        = fun p : String × (ValidationResult × Nat) => p.1 == k := by
      funext p
      by_cases hp : p.1 = k <;> simp [hp]
    rw [hpred]
    obtain ⟨p0, hp0, hp0k⟩ := List.any_eq_true.mp h
    have hsome : (List.find? (fun p : String × (ValidationResult × Nat) => p.1 == k) m).isSome :=
      List.find?_isSome.mpr ⟨p0, hp0, hp0k⟩
    obtain ⟨q, hq⟩ := Option.isSome_iff_exists.mp hsome
    have hqk : q.1 = k := by simpa using List.find?_some hq
    simp [hq, hqk]
  · simp only [h, if_false, List.find?_append]
    have hfalse : (m.any fun p => p.1 == k) = false := Bool.eq_false_iff.mpr h
    have hnone : List.find? (fun p : String × (ValidationResult × Nat) => p.1 == k) m = none :=
      List.find?_eq_none.mpr (List.any_eq_false.mp hfalse)
    simp [hnone, List.find?]

theorem cacheLookup_mapSet_other (m : VCache) (k k2 : String) (v : ValidationResult × Nat)
    (hne : k2 ≠ k) : cacheLookup (mapSet m k v) k2 = cacheLookup m k2 := by
  have hkk2 : (k == k2) = false := beq_eq_false_iff_ne.mpr (Ne.symm hne)
  unfold mapSet cacheLookup
  by_cases h : m.any (fun p => p.1 == k)
  · simp only [h, if_true, List.find?_map]
    have hpred : ((fun p : String × (ValidationResult × Nat) => p.1 == k2) ∘
        (fun p => if p.1 == k then (k, v) else p))
        = fun p : String × (ValidationResult × Nat) => p.1 == k2 := by
      funext p
      by_cases hp : p.1 = k
      · simp [hp, hkk2]
      · simp [hp]
    rw [hpred]
    rcases hq : List.find? (fun p : String × (ValidationResult × Nat) => p.1 == k2) m with _ | q
    · simp
    · have hq2 : q.1 = k2 := by simpa using List.find?_some hq
      have hq2k : ¬ q.1 = k := by rw [hq2]; exact hne
      simp [hq2k]
  · simp only [h, if_false, List.find?_append]
    have hlast : List.find? (fun p : String × (ValidationResult × Nat) => p.1 == k2) [(k, v)]
        = none := by
      simp [List.find?, hkk2]
    simp [hlast]

theorem cacheLookup_setCache_self (m : VCache) (url : String) (r : ValidationResult) (now : Nat) :
    cacheLookup (setCache m url r now) url = some (r, now + CACHE_TTL) := by
  unfold setCache
  exact cacheLookup_mapSet_self _ _ _

theorem setCache_small (m : VCache) (url : String) (r : ValidationResult) (now : Nat)
    (hlen : m.length < MAX_CACHE_SIZE) :
    setCache m url r now = mapSet m url (r, now + CACHE_TTL) := by
  unfold setCache
  simp [Nat.not_le.mpr hlen]

theorem mapSet_length_le (m : VCache) (k : String) (v : ValidationResult × Nat) :
    (mapSet m k v).length ≤ m.length + 1 := by
  unfold mapSet
  by_cases h : m.any (fun p => p.1 == k) <;> simp [h]

theorem setCache_length_le (m : VCache) (url : String) (r : ValidationResult) (now : Nat) :
    (setCache m url r now).length ≤ m.length + 1 := by
  unfold setCache
  refine le_trans (mapSet_length_le _ _ _) ?_
  have h1 : (cleanCache m now).length ≤ m.length := List.length_filter_le _ _
  by_cases h : MAX_CACHE_SIZE ≤ m.length
  · by_cases h2 : MAX_CACHE_SIZE ≤ (cleanCache m now).length
    · simp only [h, if_true, h2]
      have := List.length_drop ((cleanCache m now).length - MAX_CACHE_SIZE + 1) (cleanCache m now)
      omega
    · simp only [h, if_true, h2, if_false]
      omega
  · simp [h]

theorem mapDelete_length_le (m : VCache) (k : String) :
    (mapDelete m k).length ≤ m.length := List.length_filter_le _ _

theorem getCached_of_lookup_none (m : VCache) (url : String) (now : Nat)
    (h : cacheLookup m url = none) : getCached m url now = (none, mapDelete m url) := by
  unfold getCached
  simp [h]

theorem getCached_hit (m : VCache) (url : String) (now : Nat) (r : ValidationResult) (e : Nat)
    (h : cacheLookup m url = some (r, e)) (hfresh : now < e) :
    getCached m url now = (some r, m) := by
  unfold getCached
  simp [h, hfresh]

/-! ## Lemmas: unfolding validateUrl -/

/-- The redirect continuation that `validateUrlCore` installs at a given
budget. -/
def redirectFollower (net : Net) (now retries : Nat) :
    Nat → Option (String → VState → ValidationResult × VState)
  | 0 => none
  | m + 1 => some (validateUrlCore net now retries m)

theorem validateUrlCore_eq (net : Net) (now retries mr : Nat) (url : String) (st : VState) :
    validateUrlCore net now retries mr url st
      = validateStep net now retries (redirectFollower net now retries mr) url st := by
  cases mr <;> rfl

theorem validateStep_hit (net : Net) (now retries : Nat)
    (recurse : Option (String → VState → ValidationResult × VState)) (url : String)
    (st : VState) (r : ValidationResult) (e : Nat)
    (h : cacheLookup st.cache url = some (r, e)) (hfresh : now < e) :
    validateStep net now retries recurse url st = (r, st) := by
  unfold validateStep
  rw [getCached_hit _ _ _ _ _ h hfresh]

theorem validateStep_miss (net : Net) (now retries : Nat)
    (recurse : Option (String → VState → ValidationResult × VState)) (url : String)
    (st : VState) (hmiss : cacheLookup st.cache url = none) :
    validateStep net now retries recurse url st
      = runAttempts net now url recurse retries (retries + 1) 0 none
          { st with cache := mapDelete st.cache url } := by
  unfold validateStep
  rw [getCached_of_lookup_none _ _ _ hmiss]

theorem validateUrl_hit (net : Net) (now : Nat) (url : String) (opts : ValidationOptions)
    (st : VState) (r : ValidationResult) (e : Nat)
    (h : cacheLookup st.cache url = some (r, e)) (hfresh : now < e) :
    validateUrl net now url opts st = (r, st) := by
  unfold validateUrl
  rw [validateUrlCore_eq]
  exact validateStep_hit _ _ _ _ _ _ _ _ h hfresh

/-- Every computed (non-cache-hit) exit of the retry loop writes its result
to the cache under the probed URL, with expiry `now + CACHE_TTL`, as the
last cache operation before returning. -/
theorem runAttempts_cache_write (net : Net) (now : Nat) (url : String)
    (recurse : Option (String → VState → ValidationResult × VState)) (retries : Nat) :
    ∀ remaining attempt le st,
      cacheLookup (runAttempts net now url recurse retries remaining attempt le st).2.cache url
        = some ((runAttempts net now url recurse retries remaining attempt le st).1,
            now + CACHE_TTL) := by
  intro remaining
  induction remaining with
  | zero =>
    intro attempt le st
    simp only [runAttempts]
    exact cacheLookup_setCache_self _ _ _ _
  | succ n ih =>
    intro attempt le st
    simp only [runAttempts]
    rcases hdf : doFetch net url attempt st.log with ⟨out, log1⟩
    cases out with
    | resp status loc =>
      by_cases h3xx : 300 ≤ status ∧ status < 400
      · by_cases hloc : loc = none ∨ loc = some ""
        · simp only [hdf, h3xx, if_true, hloc]
          exact cacheLookup_setCache_self _ _ _ _
        · cases hrec : recurse with
          | none =>
            simp only [hdf, h3xx, if_true, hloc, if_false, hrec]
            exact cacheLookup_setCache_self _ _ _ _
          | some follow =>
            simp only [hdf, h3xx, if_true, hloc, if_false, hrec]
            exact cacheLookup_setCache_self _ _ _ _
      · simp only [hdf, h3xx, if_false]
        exact cacheLookup_setCache_self _ _ _ _
    | netError msg => simp only [hdf]; exact ih _ _ _
    | abortError => simp only [hdf]; exact cacheLookup_setCache_self _ _ _ _
    | httpFail msg => simp only [hdf]; exact ih _ _ _
    | unexpected msg => simp only [hdf]; exact cacheLookup_setCache_self _ _ _ _

theorem validateUrlCore_cache_write (net : Net) (now retries mr : Nat) (url : String)
    (st : VState) (hmiss : cacheLookup st.cache url = none) :
    cacheLookup (validateUrlCore net now retries mr url st).2.cache url
      = some ((validateUrlCore net now retries mr url st).1, now + CACHE_TTL) := by
  rw [validateUrlCore_eq, validateStep_miss _ _ _ _ _ _ hmiss]
  exact runAttempts_cache_write _ _ _ _ _ _ _ _ _

theorem validateUrl_cache_write (net : Net) (now : Nat) (url : String)
    (opts : ValidationOptions) (st : VState) (hmiss : cacheLookup st.cache url = none) :
    cacheLookup (validateUrl net now url opts st).2.cache url
      = some ((validateUrl net now url opts st).1, now + CACHE_TTL) := by
  unfold validateUrl
  exact validateUrlCore_cache_write _ _ _ _ _ _ hmiss

/-- Evaluation of the retry loop when the first probe answers with a
direct (non-redirect, non-405/501) response. -/
theorem runAttempts_direct (net : Net) (now : Nat) (url : String)
    (recurse : Option (String → VState → ValidationResult × VState)) (retries n attempt : Nat)
    (le : Option String) (st : VState) (s : Nat) (loc : Option String)
    (hresp : net.head url attempt = .resp s loc)
    (h45 : ¬(s = 405 ∨ s = 501)) (h3xx : ¬(300 ≤ s ∧ s < 400)) :
    runAttempts net now url recurse retries (n + 1) attempt le st =
      (let r : ValidationResult :=
        { url := url, valid := decide (200 ≤ s ∧ s < 300), status := s,
          error := if decide (200 ≤ s ∧ s < 300) then none
            else some ("HTTP " ++ toString s),
          checkedAt := now }
       (r, { cache := setCache st.cache url r now, log := st.log ++ [url] })) := by
  simp only [runAttempts, doFetch, hresp, h45, if_false, h3xx]

/-- Evaluation of the retry loop when the probe aborts (timeout): the loop
breaks immediately, with no second attempt, whatever `retries` is. -/
theorem runAttempts_abort (net : Net) (now : Nat) (url : String)
    (recurse : Option (String → VState → ValidationResult × VState)) (retries n attempt : Nat)
    (le : Option String) (st : VState)
    (habort : net.head url attempt = .abortError) :
    runAttempts net now url recurse retries (n + 1) attempt le st =
      (mkFailResult url now (some "Request timeout"),
       { cache := setCache st.cache url (mkFailResult url now (some "Request timeout")) now,
         log := st.log ++ [url] }) := by
  simp only [runAttempts, doFetch, habort]

/-! ## Further cache lemmas (key disjointness, sizes) -/

theorem cacheLookup_mapDelete_other (m : VCache) (k k2 : String) (hne : k2 ≠ k) :
    cacheLookup (mapDelete m k) k2 = cacheLookup m k2 := by
  unfold mapDelete cacheLookup
  induction m with
  | nil => rfl
  | cons p m ih =>
    by_cases hp : p.1 = k
    · rw [List.filter_cons_of_neg (by simp [hp]),
        List.find?_cons_of_neg _ (by simp [hp, Ne.symm hne])]
      exact ih
    · rw [List.filter_cons_of_pos (by simp [hp])]
      by_cases hp2 : p.1 = k2
      · rw [List.find?_cons_of_pos _ (by simp [hp2]), List.find?_cons_of_pos _ (by simp [hp2])]
      · rw [List.find?_cons_of_neg _ (by simp [hp2]), List.find?_cons_of_neg _ (by simp [hp2])]
        exact ih

theorem cacheLookup_setCache_other (m : VCache) (url k2 : String) (r : ValidationResult)
    (now : Nat) (hne : k2 ≠ url) (hlen : m.length < MAX_CACHE_SIZE) :
    cacheLookup (setCache m url r now) k2 = cacheLookup m k2 := by
  rw [setCache_small _ _ _ _ hlen]
  exact cacheLookup_mapSet_other _ _ _ _ hne

theorem getCached_cache_len (m : VCache) (url : String) (now : Nat) :
    (getCached m url now).2.length ≤ m.length := by
  unfold getCached
  rcases cacheLookup m url with _ | ⟨r, e⟩
  · exact mapDelete_length_le _ _
  · by_cases h : now < e
    · simp [h]
    · simp only [h, if_false]
      exact mapDelete_length_le _ _

/-- The retry loop grows the cache by at most `B + 1` entries, where `B`
bounds the growth caused by the redirect continuation. -/
theorem runAttempts_cache_len (net : Net) (now : Nat) (url : String)
    (recurse : Option (String → VState → ValidationResult × VState)) (retries B : Nat)
    (hrec : ∀ f u s, recurse = some f → (f u s).2.cache.length ≤ s.cache.length + B) :
    ∀ remaining attempt le st,
      (runAttempts net now url recurse retries remaining attempt le st).2.cache.length
        ≤ st.cache.length + B + 1 := by
  intro remaining
  induction remaining with
  | zero =>
    intro attempt le st
    simp only [runAttempts]
    exact le_trans (setCache_length_le _ _ _ _) (by omega)
  | succ n ih =>
    intro attempt le st
    simp only [runAttempts]
    rcases hdf : doFetch net url attempt st.log with ⟨out, log1⟩
    cases out with
    | resp status loc =>
      by_cases h3xx : 300 ≤ status ∧ status < 400
      · by_cases hloc : loc = none ∨ loc = some ""
        · simp only [hdf, h3xx, and_self, if_true, hloc]
          exact le_trans (setCache_length_le _ _ _ _) (by omega)
        · cases hrec2 : recurse with
          | none =>
            simp only [hdf, h3xx, and_self, if_true, hloc, if_false, hrec2]
            exact le_trans (setCache_length_le _ _ _ _) (by omega)
          | some follow =>
            simp only [hdf, h3xx, and_self, if_true, hloc, if_false, hrec2]
            refine le_trans (setCache_length_le _ _ _ _) ?_
            have h1 := hrec follow (resolveRedirect url (loc.getD ""))
              { st with log := log1 } hrec2
            simp only at h1 ⊢
            omega
      · simp only [hdf, h3xx, if_false]
        exact le_trans (setCache_length_le _ _ _ _) (by omega)
    | netError msg =>
      simp only [hdf]
      exact ih _ _ { st with log := log1 }
    | abortError =>
      simp only [hdf]
      exact le_trans (setCache_length_le _ _ _ _) (by omega)
    | httpFail msg =>
      simp only [hdf]
      exact ih _ _ { st with log := log1 }
    | unexpected msg =>
      simp only [hdf]
      exact le_trans (setCache_length_le _ _ _ _) (by omega)

theorem validateUrlCore_cache_len (net : Net) (now retries : Nat) :
    ∀ mr url st, (validateUrlCore net now retries mr url st).2.cache.length
      ≤ st.cache.length + mr + 1 := by
  intro mr
  induction mr with
  | zero =>
    intro url st
    rw [validateUrlCore_eq]
    unfold validateStep
    rcases hg : getCached st.cache url now with ⟨o, c⟩
    have hc : c.length ≤ st.cache.length := by
      have := getCached_cache_len st.cache url now
      rw [hg] at this
      exact this
    cases o with
    | some r =>
      simp only
      omega
    | none =>
      have := runAttempts_cache_len net now url (redirectFollower net now retries 0) retries 0
        (by intro f u s hf; simp [redirectFollower] at hf) (retries + 1) 0 none
        { st with cache := c }
      simp only at this ⊢
      omega
  | succ m ih =>
    intro url st
    rw [validateUrlCore_eq]
    unfold validateStep
    rcases hg : getCached st.cache url now with ⟨o, c⟩
    have hc : c.length ≤ st.cache.length := by
      have := getCached_cache_len st.cache url now
      rw [hg] at this
      exact this
    cases o with
    | some r =>
      simp only
      omega
    | none =>
      have := runAttempts_cache_len net now url (redirectFollower net now retries (m + 1))
        retries (m + 1)
        (by
          intro f u s hf
          simp only [redirectFollower, Option.some.injEq] at hf
          rw [← hf]
          exact ih u s)
        (retries + 1) 0 none { st with cache := c }
      simp only at this ⊢
      omega

theorem ne_empty_of_startsWith_http (s : String) (h : jsStartsWith s "http" = true) :
    s ≠ "" := by
  intro he
  subst he
  simp [jsStartsWith, hasPrefixCL] at h

theorem resolveRedirect_abs (url loc : String) (h : jsStartsWith loc "http" = true) :
    resolveRedirect url loc = loc := by
  unfold resolveRedirect
  simp [h]

/-- Evaluation of the retry loop when the first probe answers with a 3xx
carrying a nonempty Location, and a redirect budget remains: the result is
assembled from the recursive call on the resolved target. -/
theorem runAttempts_redirect_follow (net : Net) (now : Nat) (url : String)
    (follow : String → VState → ValidationResult × VState) (retries n attempt : Nat)
    (le : Option String) (st : VState) (s : Nat) (loc : String)
    (hresp : net.head url attempt = .resp s (some loc))
    (h45 : ¬(s = 405 ∨ s = 501)) (h3xx : 300 ≤ s ∧ s < 400) (hloc : loc ≠ "") :
    runAttempts net now url (some follow) retries (n + 1) attempt le st =
      (let res := follow (resolveRedirect url loc) { st with log := st.log ++ [url] }
       let r : ValidationResult :=
         { url := url, valid := res.1.valid, status := s,
           finalUrl := some (jsOrStr res.1.finalUrl (resolveRedirect url loc)),
           error := res.1.error, checkedAt := now }
       (r, { res.2 with cache := setCache res.2.cache url r now })) := by
  have hcond : ¬((some loc : Option String) = none ∨ (some loc : Option String) = some "") := by
    simp [hloc]
  simp only [runAttempts, doFetch, hresp, h45, if_false, h3xx, and_self, if_true, hcond,
    Option.getD_some]

/-! ## Claim theorems: C5, C7, C10 -/

/-- C5: for every URL whose probe attempt ends in a timeout/abort,
`validateUrl` returns an invalid result (`error = "Request timeout"`)
immediately after exactly one network attempt, for every configured
`retries` value: the fetch trace grows by exactly one entry, so the
elapsed time is bounded by a single timeout rather than
`timeout * (retries + 1)`. -/
theorem validateUrl_timeout_no_retry (net : Net) (now : Nat) (url : String)
    (opts : ValidationOptions) (st : VState)
    (hmiss : cacheLookup st.cache url = none)
    (habort : net.head url 0 = .abortError) :
    (validateUrl net now url opts st).1.valid = false
    ∧ (validateUrl net now url opts st).1.error = some "Request timeout"
    ∧ (validateUrl net now url opts st).1.status = 0
    ∧ (validateUrl net now url opts st).2.log = st.log ++ [url] := by
  unfold validateUrl
  rw [validateUrlCore_eq, validateStep_miss _ _ _ _ _ _ hmiss,
    runAttempts_abort _ _ _ _ _ _ _ _ _ habort]
  simp [mkFailResult]

def netTimeoutW : Net := ⟨fun _ _ => .abortError, fun _ _ => .abortError⟩

theorem validateUrl_timeout_no_retry_witness :
    (validateUrl netTimeoutW 0 "https://w.aa/t" { retries := some 5 } ⟨[], []⟩).1.valid = false
    ∧ (validateUrl netTimeoutW 0 "https://w.aa/t" { retries := some 5 } ⟨[], []⟩).1.error
        = some "Request timeout"
    ∧ (validateUrl netTimeoutW 0 "https://w.aa/t" { retries := some 5 } ⟨[], []⟩).1.status = 0
    ∧ (validateUrl netTimeoutW 0 "https://w.aa/t" { retries := some 5 } ⟨[], []⟩).2.log
        = [] ++ ["https://w.aa/t"] :=
  validateUrl_timeout_no_retry netTimeoutW 0 "https://w.aa/t" { retries := some 5 } ⟨[], []⟩
    rfl rfl

/-- C7: every computed terminal result of `validateUrl` (valid or invalid)
is written to the validation cache with the fixed 5-minute TTL before
being returned, and a second call on the same URL within the TTL window
(with any options) returns the cached first result with the state — in
particular the fetch trace — unchanged; when the first probe answers
directly, the first call issues exactly one probe, so the two calls
together issue one probe. -/
theorem validateUrl_cache_write_and_hit (net : Net) (now now2 : Nat) (url : String)
    (o1 o2 : ValidationOptions) (st : VState)
    (hmiss : cacheLookup st.cache url = none)
    (hfresh : now2 < now + CACHE_TTL) :
    cacheLookup (validateUrl net now url o1 st).2.cache url
        = some ((validateUrl net now url o1 st).1, now + CACHE_TTL)
    ∧ validateUrl net now2 url o2 (validateUrl net now url o1 st).2
        = ((validateUrl net now url o1 st).1, (validateUrl net now url o1 st).2)
    ∧ (∀ s loc, net.head url 0 = .resp s loc → ¬(s = 405 ∨ s = 501) →
        ¬(300 ≤ s ∧ s < 400) →
        (validateUrl net now url o1 st).2.log = st.log ++ [url]) := by
  have hw := validateUrl_cache_write net now url o1 st hmiss
  refine ⟨hw, ?_, ?_⟩
  · exact validateUrl_hit net now2 url o2 _ _ _ hw hfresh
  · intro s loc hresp h45 h3xx
    unfold validateUrl
    rw [validateUrlCore_eq, validateStep_miss _ _ _ _ _ _ hmiss,
      runAttempts_direct _ _ _ _ _ _ _ _ _ _ _ hresp h45 h3xx]

def netOkW : Net := ⟨fun _ _ => .resp 200 none, fun _ _ => .resp 200 none⟩

theorem validateUrl_cache_write_and_hit_witness :
    cacheLookup (validateUrl netOkW 0 "https://w.aa/ok" {} ⟨[], []⟩).2.cache "https://w.aa/ok"
        = some ((validateUrl netOkW 0 "https://w.aa/ok" {} ⟨[], []⟩).1, 0 + CACHE_TTL)
    ∧ validateUrl netOkW 100 "https://w.aa/ok" { maxRedirects := some 9 }
          (validateUrl netOkW 0 "https://w.aa/ok" {} ⟨[], []⟩).2
        = ((validateUrl netOkW 0 "https://w.aa/ok" {} ⟨[], []⟩).1,
           (validateUrl netOkW 0 "https://w.aa/ok" {} ⟨[], []⟩).2)
    ∧ (∀ s loc, netOkW.head "https://w.aa/ok" 0 = .resp s loc → ¬(s = 405 ∨ s = 501) →
        ¬(300 ≤ s ∧ s < 400) →
        (validateUrl netOkW 0 "https://w.aa/ok" {} ⟨[], []⟩).2.log
          = [] ++ ["https://w.aa/ok"]) :=
  validateUrl_cache_write_and_hit netOkW 0 100 "https://w.aa/ok" {}
    { maxRedirects := some 9 } ⟨[], []⟩ rfl (by decide)

/-- C10: the validation cache is keyed by the URL string alone and ignores
the options record.  If a call on `A` (budget `m + 1`) follows a redirect
to `B`, then `B` is cached with the result computed under the reduced
budget `m`, and a later call on `B` within the TTL window — with any
options `o2` — returns that reduced-budget result unchanged. -/
theorem validationCache_ignores_options (net : Net) (now now2 : Nat) (A B : String)
    (o1 o2 : ValidationOptions) (st : VState) (m : Nat)
    (hmr : o1.maxRedirects.getD DEFAULT_MAX_REDIRECTS = m + 1)
    (hmissA : cacheLookup st.cache A = none)
    (hmissB : cacheLookup st.cache B = none)
    (hA : net.head A 0 = .resp 301 (some B))
    (hB : jsStartsWith B "http" = true)
    (hAB : A ≠ B)
    (hsize : st.cache.length + m + 2 < MAX_CACHE_SIZE)
    (hfresh : now2 < now + CACHE_TTL) :
    cacheLookup (validateUrl net now A o1 st).2.cache B
      = some ((validateUrl net now B { o1 with maxRedirects := some m }
          ⟨mapDelete st.cache A, st.log ++ [A]⟩).1, now + CACHE_TTL)
    ∧ (validateUrl net now2 B o2 (validateUrl net now A o1 st).2).1
      = (validateUrl net now B { o1 with maxRedirects := some m }
          ⟨mapDelete st.cache A, st.log ++ [A]⟩).1 := by
  have hBne : B ≠ "" := ne_empty_of_startsWith_http B hB
  have hres : resolveRedirect A B = B := resolveRedirect_abs A B hB
  have hinner : validateUrl net now B { o1 with maxRedirects := some m }
      ⟨mapDelete st.cache A, st.log ++ [A]⟩
      = validateUrlCore net now (o1.retries.getD DEFAULT_RETRIES) m B
          ⟨mapDelete st.cache A, st.log ++ [A]⟩ := rfl
  have houter : validateUrl net now A o1 st
      = runAttempts net now A
          (some (validateUrlCore net now (o1.retries.getD DEFAULT_RETRIES) m))
          (o1.retries.getD DEFAULT_RETRIES) (o1.retries.getD DEFAULT_RETRIES + 1) 0 none
          { st with cache := mapDelete st.cache A } := by
    unfold validateUrl
    rw [hmr, validateUrlCore_eq, validateStep_miss _ _ _ _ _ _ hmissA]
    rfl
  have hmissB2 : cacheLookup (mapDelete st.cache A) B = none := by
    rw [cacheLookup_mapDelete_other _ _ _ (Ne.symm hAB)]
    exact hmissB
  have hwB := validateUrlCore_cache_write net now (o1.retries.getD DEFAULT_RETRIES) m B
    ⟨mapDelete st.cache A, st.log ++ [A]⟩ hmissB2
  have hlenB := validateUrlCore_cache_len net now (o1.retries.getD DEFAULT_RETRIES) m B
    ⟨mapDelete st.cache A, st.log ++ [A]⟩
  have hlenIn : (mapDelete st.cache A).length ≤ st.cache.length := mapDelete_length_le _ _
  have hsmall : (validateUrlCore net now (o1.retries.getD DEFAULT_RETRIES) m B
      ⟨mapDelete st.cache A, st.log ++ [A]⟩).2.cache.length < MAX_CACHE_SIZE := by
    simp only at hlenB
    omega
  have h1 : cacheLookup (validateUrl net now A o1 st).2.cache B
      = some ((validateUrl net now B { o1 with maxRedirects := some m }
          ⟨mapDelete st.cache A, st.log ++ [A]⟩).1, now + CACHE_TTL) := by
    rw [houter, runAttempts_redirect_follow _ _ _ _ _ _ _ _ _ _ _ hA (by omega) (by omega) hBne,
      hres]
    simp only
    rw [cacheLookup_setCache_other _ _ _ _ _ (Ne.symm hAB) hsmall, hinner]
    exact hwB
  have h2 := validateUrl_hit net now2 B o2 (validateUrl net now A o1 st).2
    ((validateUrl net now B { o1 with maxRedirects := some m }
      ⟨mapDelete st.cache A, st.log ++ [A]⟩).1) (now + CACHE_TTL) h1 hfresh
  exact ⟨h1, by rw [h2]⟩

theorem jsOrStr_some_ne (s b : String) (h : s ≠ "") : jsOrStr (some s) b = s := by
  unfold jsOrStr
  simp [h]

/-- Evaluation of the retry loop on a 3xx with nonempty Location when no
redirect budget remains: the hard `Too many redirects` stop. -/
theorem runAttempts_redirect_stop (net : Net) (now : Nat) (url : String)
    (retries n attempt : Nat) (le : Option String) (st : VState) (s : Nat) (loc : String)
    (hresp : net.head url attempt = .resp s (some loc))
    (h45 : ¬(s = 405 ∨ s = 501)) (h3xx : 300 ≤ s ∧ s < 400) (hloc : loc ≠ "") :
    runAttempts net now url none retries (n + 1) attempt le st =
      (let r : ValidationResult :=
        { url := url, valid := false, status := s,
          error := some "Too many redirects", checkedAt := now }
       (r, { cache := setCache st.cache url r now, log := st.log ++ [url] })) := by
  have hcond : ¬((some loc : Option String) = none ∨ (some loc : Option String) = some "") := by
    simp [hloc]
  simp only [runAttempts, doFetch, hresp, h45, if_false, h3xx, and_self, if_true, hcond,
    Option.getD_some]

/-! ## Claim C4 -/

def netSelfLoop : Net :=
  ⟨fun _ _ => .resp 301 (some "https://a.aa/x"), fun _ _ => .resp 301 (some "https://a.aa/x")⟩

/-- C4 counterexample: a URL that redirects to itself exhausts the budget,
and the returned result has `finalUrl` SET and EQUAL to the input URL —
refuting "finalUrl is set if and only if the resolved redirect chain
terminated at a URL different from the input URL". -/
theorem finalUrl_self_redirect_counterexample :
    (validateUrl netSelfLoop 0 "https://a.aa/x" {} ⟨[], []⟩).1.url = "https://a.aa/x"
    ∧ (validateUrl netSelfLoop 0 "https://a.aa/x" {} ⟨[], []⟩).1.finalUrl
        = some "https://a.aa/x"
    ∧ (validateUrl netSelfLoop 0 "https://a.aa/x" {} ⟨[], []⟩).1.valid = false :=
  ⟨rfl, rfl, rfl⟩

/-- The response the attempt loop actually acts on: the HEAD response, or
the ranged-GET response when the HEAD was answered 405/501 (part_006
lines 360-394).  This is the first component of `doFetch`. -/
def effectiveResp (net : Net) (url : String) (attempt : Nat) : FetchOutcome :=
  match net.head url attempt with
  | .resp s loc => if s = 405 ∨ s = 501 then net.rangeGet url attempt else .resp s loc
  | e => e

theorem doFetch_fst (net : Net) (url : String) (attempt : Nat) (log : List String) :
    (doFetch net url attempt log).1 = effectiveResp net url attempt := by
  unfold doFetch effectiveResp
  cases net.head url attempt with
  | resp s loc =>
    by_cases h45 : s = 405 ∨ s = 501
    · simp only [h45, if_true]
    · simp only [h45, if_false]
  | netError msg => rfl
  | abortError => rfl
  | httpFail msg => rfl
  | unexpected msg => rfl

/-- Evaluation of the retry loop when the effective first-probe response
(HEAD, or the ranged GET after a 405/501 HEAD) is a direct non-redirect
answer: the returned result is built from that status, with no
`finalUrl`. -/
theorem runAttempts_effective_direct (net : Net) (now : Nat) (url : String)
    (recurse : Option (String → VState → ValidationResult × VState)) (retries n attempt : Nat)
    (le : Option String) (st : VState) (t : Nat) (loc : Option String)
    (hresp : effectiveResp net url attempt = .resp t loc)
    (h3xx : ¬(300 ≤ t ∧ t < 400)) :
    (runAttempts net now url recurse retries (n + 1) attempt le st).1 =
      { url := url, valid := decide (200 ≤ t ∧ t < 300), status := t,
        error := if decide (200 ≤ t ∧ t < 300) = true then none
          else some ("HTTP " ++ toString t),
        checkedAt := now } := by
  unfold effectiveResp at hresp
  cases hh : net.head url attempt with
  | resp s loc0 =>
    rw [hh] at hresp
    simp only [] at hresp
    by_cases h45 : s = 405 ∨ s = 501
    · rw [if_pos h45] at hresp
      simp only [runAttempts, doFetch, hh, h45, if_true, hresp, h3xx, if_false]
    · rw [if_neg h45] at hresp
      injection hresp with h1 h2
      subst h1
      rw [runAttempts_direct _ _ _ _ _ _ _ _ _ _ _ hh h45 h3xx]
  | netError msg => rw [hh] at hresp; simp at hresp
  | abortError => rw [hh] at hresp; simp at hresp
  | httpFail msg => rw [hh] at hresp; simp at hresp
  | unexpected msg => rw [hh] at hresp; simp at hresp

/-- With no redirect budget left (`recurse = none`), no exit of the retry
loop ever sets `finalUrl`. -/
theorem runAttempts_none_finalUrl (net : Net) (now : Nat) (url : String) (retries : Nat) :
    ∀ remaining attempt le st,
      (runAttempts net now url none retries remaining attempt le st).1.finalUrl = none := by
  intro remaining
  induction remaining with
  | zero => intro attempt le st; rfl
  | succ n ih =>
    intro attempt le st
    simp only [runAttempts]
    rcases hdf : doFetch net url attempt st.log with ⟨out, log1⟩
    cases out with
    | resp status loc =>
      by_cases h3xx : 300 ≤ status ∧ status < 400
      · by_cases hloc : loc = none ∨ loc = some ""
        · simp only [hdf, h3xx, and_self, if_true, hloc]
        · simp only [hdf, h3xx, and_self, if_true, hloc, if_false]
      · simp only [hdf, h3xx, if_false]
    | netError msg => simp only [hdf]; exact ih _ _ _
    | abortError => simp only [hdf]; rfl
    | httpFail msg => simp only [hdf]; exact ih _ _ _
    | unexpected msg => simp only [hdf]; rfl

/-- When no probe attempt ever yields an effective 3xx response, the retry
loop never enters a redirect branch, so `finalUrl` stays unset — whatever
the remaining redirect budget is. -/
theorem runAttempts_no3xx_finalUrl (net : Net) (now : Nat) (url : String)
    (recurse : Option (String → VState → ValidationResult × VState)) (retries : Nat)
    (h : ∀ a s loc, effectiveResp net url a = .resp s loc → ¬(300 ≤ s ∧ s < 400)) :
    ∀ remaining attempt le st,
      (runAttempts net now url recurse retries remaining attempt le st).1.finalUrl = none := by
  intro remaining
  induction remaining with
  | zero => intro attempt le st; rfl
  | succ n ih =>
    intro attempt le st
    simp only [runAttempts]
    rcases hdf : doFetch net url attempt st.log with ⟨out, log1⟩
    cases out with
    | resp status loc =>
      have heff : effectiveResp net url attempt = .resp status loc := by
        rw [← doFetch_fst net url attempt st.log, hdf]
      have h3xx := h attempt status loc heff
      simp only [hdf, h3xx, if_false]
    | netError msg => simp only [hdf]; exact ih _ _ _
    | abortError => simp only [hdf]; rfl
    | httpFail msg => simp only [hdf]; exact ih _ _ _
    | unexpected msg => simp only [hdf]; rfl

/-- Resolution of a redirect chain whose terminal probe answers with any
direct (non-3xx) status `t`: starting `k` hops before the terminal URL
with budget `M ≥ k` and an empty cache, the result takes `valid` and
`error` from the terminal status (`valid` true and `error` empty exactly
when `t` is 2xx), and `finalUrl` is the terminal URL (absent when no hop
was needed). -/
theorem chain_resolve (net : Net) (f : Nat → String) (N now retries t : Nat)
    (locT : Option String)
    (hhop : ∀ i, i < N → ∃ s, 300 ≤ s ∧ s < 400
      ∧ ∀ a, net.head (f i) a = .resp s (some (f (i + 1))))
    (hhttp : ∀ i, i < N → jsStartsWith (f (i + 1)) "http" = true)
    (hterm : effectiveResp net (f N) 0 = .resp t locT)
    (ht3 : ¬(300 ≤ t ∧ t < 400)) :
    ∀ k j M log, j + k = N → k ≤ M →
      ((validateUrlCore net now retries M (f j) ⟨[], log⟩).1.valid
          = decide (200 ≤ t ∧ t < 300)
      ∧ (validateUrlCore net now retries M (f j) ⟨[], log⟩).1.error
          = (if decide (200 ≤ t ∧ t < 300) = true then none
             else some ("HTTP " ++ toString t))
      ∧ (validateUrlCore net now retries M (f j) ⟨[], log⟩).1.finalUrl
          = if k = 0 then none else some (f N)) := by
  intro k
  induction k with
  | zero =>
    intro j M log hjk hkM
    have hj : j = N := by omega
    subst hj
    rw [validateUrlCore_eq, validateStep_miss _ _ _ _ _ ⟨[], log⟩ rfl,
      runAttempts_effective_direct _ _ _ _ _ _ _ _ _ _ _ hterm ht3]
    simp
  | succ k ih =>
    intro j M log hjk hkM
    obtain ⟨s, hs1, hs2, hresp⟩ := hhop j (by omega)
    obtain ⟨M2, hM⟩ : ∃ M2, M = M2 + 1 := ⟨M - 1, by omega⟩
    subst hM
    have hhtj := hhttp j (by omega)
    have hlocne : f (j + 1) ≠ "" := ne_empty_of_startsWith_http _ hhtj
    rw [validateUrlCore_eq]
    simp only [redirectFollower]
    rw [validateStep_miss _ _ _ _ _ ⟨[], log⟩ rfl,
      runAttempts_redirect_follow _ _ _ _ _ _ _ _ _ _ _ (hresp 0) (by omega) ⟨hs1, hs2⟩ hlocne,
      resolveRedirect_abs _ _ hhtj]
    have hmd : mapDelete ([] : VCache) (f j) = [] := rfl
    simp only [hmd]
    obtain ⟨hv, he, hf⟩ := ih (j + 1) M2 (log ++ [f j]) (by omega) (by omega)
    refine ⟨hv, he, ?_⟩
    rw [hf]
    by_cases hk : k = 0
    · subst hk
      simp only [if_pos rfl, jsOrStr]
      have hjN : j + 1 = N := by omega
      rw [hjN]
      simp
    · have hN1 : 1 ≤ N := by omega
      have hfN : f N ≠ "" := by
        have := hhttp (N - 1) (by omega)
        have he2 : N - 1 + 1 = N := by omega
        rw [he2] at this
        exact ne_empty_of_startsWith_http _ this
      rw [if_neg hk, jsOrStr_some_ne _ _ hfN]
      simp [hk]

/-- C4 (amended): `finalUrl` is set only when a redirect hop was actually
followed — it may then equal the input URL when the chain loops back — and
`valid` is true iff the terminal response of the resolved chain has a 2xx
status and no error occurred during resolution: for a chain that resolves
to a direct terminal answer, the terminal status decides `valid` and the
propagated `error` is empty exactly when that status is 2xx; in
particular, for every URL whose probe answers without a redirect —
including via the 405/501 ranged-GET fallback — the result has
`valid = (200 ≤ status < 300)`, that status, and no `finalUrl`. -/
theorem validateUrl_finalUrl_cases (net : Net) (now : Nat) (url : String)
    (opts : ValidationOptions) (st : VState)
    (hmiss : cacheLookup st.cache url = none) :
    (∀ t loc, effectiveResp net url 0 = .resp t loc → ¬(300 ≤ t ∧ t < 400) →
      (validateUrl net now url opts st).1.valid = decide (200 ≤ t ∧ t < 300)
      ∧ (validateUrl net now url opts st).1.finalUrl = none
      ∧ (validateUrl net now url opts st).1.status = t)
    ∧ (∀ s loc, net.head url 0 = .resp s (some loc) → 300 ≤ s → s < 400 → loc ≠ "" →
        1 ≤ opts.maxRedirects.getD DEFAULT_MAX_REDIRECTS →
        (validateUrl net now url opts st).1.finalUrl.isSome = true)
    ∧ (opts.maxRedirects.getD DEFAULT_MAX_REDIRECTS = 0 →
        (validateUrl net now url opts st).1.finalUrl = none)
    ∧ ((∀ a s loc, effectiveResp net url a = .resp s loc → ¬(300 ≤ s ∧ s < 400)) →
        (validateUrl net now url opts st).1.finalUrl = none)
    ∧ (∀ (f : Nat → String) (N t : Nat) (locT : Option String),
        f 0 = url → st.cache = [] →
        (∀ i, i < N → ∃ s, 300 ≤ s ∧ s < 400
          ∧ ∀ a, net.head (f i) a = .resp s (some (f (i + 1)))) →
        (∀ i, i < N → jsStartsWith (f (i + 1)) "http" = true) →
        effectiveResp net (f N) 0 = .resp t locT →
        ¬(300 ≤ t ∧ t < 400) →
        N ≤ opts.maxRedirects.getD DEFAULT_MAX_REDIRECTS →
        (validateUrl net now url opts st).1.valid = decide (200 ≤ t ∧ t < 300)
        ∧ (validateUrl net now url opts st).1.error
            = (if decide (200 ≤ t ∧ t < 300) = true then none
               else some ("HTTP " ++ toString t))
        ∧ (validateUrl net now url opts st).1.finalUrl
            = (if N = 0 then none else some (f N))) := by
  obtain ⟨c, l⟩ := st
  refine ⟨?_, ?_, ?_, ?_, ?_⟩
  · intro t loc hresp h3xx
    unfold validateUrl
    rw [validateUrlCore_eq, validateStep_miss _ _ _ _ _ _ hmiss,
      runAttempts_effective_direct _ _ _ _ _ _ _ _ _ _ _ hresp h3xx]
    exact ⟨rfl, rfl, rfl⟩
  · intro s loc hresp h3 h4 hlocne hmr
    obtain ⟨m, hm⟩ : ∃ m, opts.maxRedirects.getD DEFAULT_MAX_REDIRECTS = m + 1 :=
      ⟨opts.maxRedirects.getD DEFAULT_MAX_REDIRECTS - 1, by omega⟩
    have h45 : ¬(s = 405 ∨ s = 501) := by omega
    unfold validateUrl
    rw [hm, validateUrlCore_eq]
    simp only [redirectFollower]
    rw [validateStep_miss _ _ _ _ _ _ hmiss,
      runAttempts_redirect_follow _ _ _ _ _ _ _ _ _ _ _ hresp h45 ⟨h3, h4⟩ hlocne]
    simp
  · intro hmr0
    unfold validateUrl
    rw [hmr0, validateUrlCore_eq]
    simp only [redirectFollower]
    rw [validateStep_miss _ _ _ _ _ _ hmiss]
    exact runAttempts_none_finalUrl _ _ _ _ _ _ _ _
  · intro hno
    unfold validateUrl
    rw [validateUrlCore_eq, validateStep_miss _ _ _ _ _ _ hmiss]
    exact runAttempts_no3xx_finalUrl _ _ _ _ _ hno _ _ _ _
  · intro f N t locT hf0 hcache hhop hhttp hterm ht3 hM
    subst hf0
    simp only [] at hcache
    subst hcache
    unfold validateUrl
    exact chain_resolve net f N now (opts.retries.getD DEFAULT_RETRIES) t locT
      hhop hhttp hterm ht3 N 0 (opts.maxRedirects.getD DEFAULT_MAX_REDIRECTS) l
      (by omega) hM

def netFallbackW : Net := ⟨fun _ _ => .resp 405 none, fun _ _ => .resp 200 none⟩

theorem validateUrl_finalUrl_cases_witness :
    (validateUrl netFallbackW 0 "https://w.aa/f" {} ⟨[], []⟩).1.valid
        = decide (200 ≤ 200 ∧ 200 < 300)
    ∧ (validateUrl netFallbackW 0 "https://w.aa/f" {} ⟨[], []⟩).1.finalUrl = none
    ∧ (validateUrl netFallbackW 0 "https://w.aa/f" {} ⟨[], []⟩).1.status = 200 :=
  (validateUrl_finalUrl_cases netFallbackW 0 "https://w.aa/f" {} ⟨[], []⟩ rfl).1 200 none rfl
    (by decide)

/-! ## Claim C2: redirect chains -/

/-- Resolution of a redirect chain within budget: starting `k` hops before
the terminal URL with budget `M ≥ k` and an empty cache, the result is
valid with no error, and `finalUrl` is the terminal URL (absent when no
hop was needed). -/
theorem chain_success (net : Net) (f : Nat → String) (N now retries : Nat)
    (hhop : ∀ i, i < N → ∃ s, 300 ≤ s ∧ s < 400
      ∧ ∀ a, net.head (f i) a = .resp s (some (f (i + 1))))
    (hhttp : ∀ i, i < N → jsStartsWith (f (i + 1)) "http" = true)
    (hterm : ∃ t, 200 ≤ t ∧ t < 300 ∧ ∀ a, net.head (f N) a = .resp t none) :
    ∀ k j M log, j + k = N → k ≤ M →
      ((validateUrlCore net now retries M (f j) ⟨[], log⟩).1.valid = true
      ∧ (validateUrlCore net now retries M (f j) ⟨[], log⟩).1.error = none
      ∧ (validateUrlCore net now retries M (f j) ⟨[], log⟩).1.finalUrl
          = if k = 0 then none else some (f N)) := by
  intro k
  induction k with
  | zero =>
    intro j M log hjk hkM
    obtain ⟨t, ht1, ht2, hresp⟩ := hterm
    have hj : j = N := by omega
    subst hj
    rw [validateUrlCore_eq, validateStep_miss _ _ _ _ _ ⟨[], log⟩ rfl,
      runAttempts_direct _ _ _ _ _ _ _ _ _ _ _ (hresp 0) (by omega) (by omega)]
    simp only [if_pos rfl]
    refine ⟨by simp [ht1, ht2], by simp [ht1, ht2], rfl⟩
  | succ k ih =>
    intro j M log hjk hkM
    obtain ⟨s, hs1, hs2, hresp⟩ := hhop j (by omega)
    obtain ⟨M2, hM⟩ : ∃ M2, M = M2 + 1 := ⟨M - 1, by omega⟩
    subst hM
    have hhtj := hhttp j (by omega)
    have hlocne : f (j + 1) ≠ "" := ne_empty_of_startsWith_http _ hhtj
    rw [validateUrlCore_eq]
    simp only [redirectFollower]
    rw [validateStep_miss _ _ _ _ _ ⟨[], log⟩ rfl,
      runAttempts_redirect_follow _ _ _ _ _ _ _ _ _ _ _ (hresp 0) (by omega) ⟨hs1, hs2⟩ hlocne,
      resolveRedirect_abs _ _ hhtj]
    have hmd : mapDelete ([] : VCache) (f j) = [] := rfl
    simp only [hmd]
    obtain ⟨hv, he, hf⟩ := ih (j + 1) M2 (log ++ [f j]) (by omega) (by omega)
    refine ⟨hv, he, ?_⟩
    rw [hf]
    by_cases hk : k = 0
    · subst hk
      simp only [if_pos rfl, jsOrStr]
      have hjN : j + 1 = N := by omega
      rw [hjN]
      simp
    · have hN1 : 1 ≤ N := by omega
      have hfN : f N ≠ "" := by
        have := hhttp (N - 1) (by omega)
        have he2 : N - 1 + 1 = N := by omega
        rw [he2] at this
        exact ne_empty_of_startsWith_http _ this
      rw [if_neg hk, jsOrStr_some_ne _ _ hfN]
      simp [hk]

/-- Resolution of a redirect chain with insufficient budget `M < k`: the
result is invalid with the redirect-overflow error, propagated unchanged
from the innermost exhausted call. -/
theorem chain_overflow (net : Net) (f : Nat → String) (N now retries : Nat)
    (hhop : ∀ i, i < N → ∃ s, 300 ≤ s ∧ s < 400
      ∧ ∀ a, net.head (f i) a = .resp s (some (f (i + 1))))
    (hhttp : ∀ i, i < N → jsStartsWith (f (i + 1)) "http" = true) :
    ∀ M j k log, j + k ≤ N → M < k →
      ((validateUrlCore net now retries M (f j) ⟨[], log⟩).1.valid = false
      ∧ (validateUrlCore net now retries M (f j) ⟨[], log⟩).1.error
          = some "Too many redirects") := by
  intro M
  induction M with
  | zero =>
    intro j k log hjk hMk
    obtain ⟨s, hs1, hs2, hresp⟩ := hhop j (by omega)
    have hhtj := hhttp j (by omega)
    have hlocne : f (j + 1) ≠ "" := ne_empty_of_startsWith_http _ hhtj
    rw [validateUrlCore_eq]
    simp only [redirectFollower]
    rw [validateStep_miss _ _ _ _ _ ⟨[], log⟩ rfl,
      runAttempts_redirect_stop _ _ _ _ _ _ _ _ _ _ (hresp 0) (by omega) ⟨hs1, hs2⟩ hlocne]
    exact ⟨rfl, rfl⟩
  | succ M2 ih =>
    intro j k log hjk hMk
    obtain ⟨s, hs1, hs2, hresp⟩ := hhop j (by omega)
    have hhtj := hhttp j (by omega)
    have hlocne : f (j + 1) ≠ "" := ne_empty_of_startsWith_http _ hhtj
    rw [validateUrlCore_eq]
    simp only [redirectFollower]
    rw [validateStep_miss _ _ _ _ _ ⟨[], log⟩ rfl,
      runAttempts_redirect_follow _ _ _ _ _ _ _ _ _ _ _ (hresp 0) (by omega) ⟨hs1, hs2⟩ hlocne,
      resolveRedirect_abs _ _ hhtj]
    have hmd : mapDelete ([] : VCache) (f j) = [] := rfl
    simp only [hmd]
    obtain ⟨hv, he⟩ := ih (j + 1) (k - 1) (log ++ [f j]) (by omega) (by omega)
    exact ⟨hv, he⟩

/-- C2: for a probe chain of `N ≥ 1` redirects (3xx with absolute Location
targets) ending at a 2xx, `validateUrl` on an empty cache with
`maxRedirects ≥ N` returns `valid = true` and `finalUrl` equal to the
terminal URL; with `maxRedirects < N` it returns `valid = false` with the
`Too many redirects` error, both propagated from the innermost recursive
call. -/
theorem validateUrl_redirect_chain (net : Net) (f : Nat → String) (N now : Nat)
    (opts : ValidationOptions) (log : List String)
    (hN : 1 ≤ N)
    (hhop : ∀ i, i < N → ∃ s, 300 ≤ s ∧ s < 400
      ∧ ∀ a, net.head (f i) a = .resp s (some (f (i + 1))))
    (hhttp : ∀ i, i < N → jsStartsWith (f (i + 1)) "http" = true)
    (hterm : ∃ t, 200 ≤ t ∧ t < 300 ∧ ∀ a, net.head (f N) a = .resp t none) :
    (N ≤ opts.maxRedirects.getD DEFAULT_MAX_REDIRECTS →
      (validateUrl net now (f 0) opts ⟨[], log⟩).1.valid = true
      ∧ (validateUrl net now (f 0) opts ⟨[], log⟩).1.finalUrl = some (f N)
      ∧ (validateUrl net now (f 0) opts ⟨[], log⟩).1.error = none)
    ∧ (opts.maxRedirects.getD DEFAULT_MAX_REDIRECTS < N →
      (validateUrl net now (f 0) opts ⟨[], log⟩).1.valid = false
      ∧ (validateUrl net now (f 0) opts ⟨[], log⟩).1.error = some "Too many redirects") := by
  constructor
  · intro hM
    obtain ⟨hv, he, hf⟩ := chain_success net f N now (opts.retries.getD DEFAULT_RETRIES)
      hhop hhttp hterm N 0 (opts.maxRedirects.getD DEFAULT_MAX_REDIRECTS) log (by omega) hM
    unfold validateUrl
    refine ⟨hv, ?_, he⟩
    rw [hf, if_neg (by omega)]
  · intro hM
    unfold validateUrl
    exact chain_overflow net f N now (opts.retries.getD DEFAULT_RETRIES) hhop hhttp
      (opts.maxRedirects.getD DEFAULT_MAX_REDIRECTS) 0 N log (by omega) hM

def fChainW : Nat → String := fun i => if i = 0 then "https://c2.aa/a" else "https://c2.aa/b"

def netChainW : Net :=
  ⟨fun u _ =>
    if u = "https://c2.aa/a" then .resp 301 (some "https://c2.aa/b")
    else if u = "https://c2.aa/b" then .resp 200 none
    else .abortError,
   fun _ _ => .abortError⟩

theorem validateUrl_redirect_chain_witness :
    (validateUrl netChainW 0 (fChainW 0) {} ⟨[], []⟩).1.valid = true
    ∧ (validateUrl netChainW 0 (fChainW 0) {} ⟨[], []⟩).1.finalUrl = some (fChainW 1)
    ∧ (validateUrl netChainW 0 (fChainW 0) {} ⟨[], []⟩).1.error = none :=
  (validateUrl_redirect_chain netChainW fChainW 1 0 {} [] (by omega)
    (by
      intro i hi
      have hi0 : i = 0 := by omega
      subst hi0
      exact ⟨301, by omega, by omega, fun a => rfl⟩)
    (by
      intro i hi
      have hi0 : i = 0 := by omega
      subst hi0
      decide)
    ⟨200, by omega, by omega, fun a => rfl⟩).1 (by decide)

def netHopW : Net :=
  ⟨fun u _ =>
    if u = "https://w.aa/r" then .resp 301 (some "https://w.aa/k")
    else if u = "https://w.aa/k" then .resp 200 none
    else .abortError,
   fun _ _ => .abortError⟩

theorem validationCache_ignores_options_witness :
    cacheLookup (validateUrl netHopW 0 "https://w.aa/r" {} ⟨[], []⟩).2.cache "https://w.aa/k"
      = some ((validateUrl netHopW 0 "https://w.aa/k" { maxRedirects := some 2 }
          ⟨mapDelete [] "https://w.aa/r", [] ++ ["https://w.aa/r"]⟩).1, 0 + CACHE_TTL)
    ∧ (validateUrl netHopW 1 "https://w.aa/k" { retries := some 4 }
          (validateUrl netHopW 0 "https://w.aa/r" {} ⟨[], []⟩).2).1
      = (validateUrl netHopW 0 "https://w.aa/k" { maxRedirects := some 2 }
          ⟨mapDelete [] "https://w.aa/r", [] ++ ["https://w.aa/r"]⟩).1 :=
  validationCache_ignores_options netHopW 0 1 "https://w.aa/r" "https://w.aa/k" {}
    { retries := some 4 } ⟨[], []⟩ 2 rfl rfl rfl rfl (by decide) (by decide) (by decide)
    (by decide)

/-! ## Claim C6: the validator fails closed -/

/-- Well-formedness of a single result: it is valid exactly when no error
is recorded. -/
def ResultWF (r : ValidationResult) : Prop := r.valid = true ↔ r.error = none

/-- Well-formedness of the cache: every entry stores a result for its own
key satisfying `ResultWF`.  This holds for every cache the validator can
build. -/
def CacheWF (m : VCache) : Prop := ∀ p ∈ m, p.2.1.url = p.1 ∧ ResultWF p.2.1

theorem CacheWF_nil : CacheWF [] := by
  intro p hp
  cases hp

theorem CacheWF_filter (m : VCache) (g : String × (ValidationResult × Nat) → Bool)
    (h : CacheWF m) : CacheWF (m.filter g) := by
  intro p hp
  exact h p (List.mem_filter.mp hp).1

theorem CacheWF_drop (m : VCache) (n : Nat) (h : CacheWF m) : CacheWF (m.drop n) := by
  intro p hp
  exact h p (List.mem_of_mem_drop hp)

theorem CacheWF_mapSet (m : VCache) (k : String) (r : ValidationResult) (e : Nat)
    (h : CacheWF m) (hurl : r.url = k) (hwf : ResultWF r) : CacheWF (mapSet m k (r, e)) := by
  unfold mapSet
  by_cases hc : m.any (fun p => p.1 == k)
  · simp only [hc, if_true]
    intro p hp
    obtain ⟨q, hq, hqe⟩ := List.mem_map.mp hp
    subst hqe
    by_cases hqk : q.1 = k
    · simp only [hqk, beq_self_eq_true, if_true]
      exact ⟨hurl, hwf⟩
    · simp only [beq_eq_false_iff_ne.mpr hqk, Bool.false_eq_true, if_false]
      exact h q hq
  · simp only [hc, if_false]
    intro p hp
    rcases List.mem_append.mp hp with h1 | h2
    · exact h p h1
    · have hp2 : p = (k, (r, e)) := by simpa using h2
      subst hp2
      exact ⟨hurl, hwf⟩

theorem CacheWF_setCache (m : VCache) (k : String) (r : ValidationResult) (now : Nat)
    (h : CacheWF m) (hurl : r.url = k) (hwf : ResultWF r) : CacheWF (setCache m k r now) := by
  unfold setCache
  apply CacheWF_mapSet _ _ _ _ _ hurl hwf
  by_cases h1 : MAX_CACHE_SIZE ≤ m.length
  · simp only [h1, if_true]
    by_cases h2 : MAX_CACHE_SIZE ≤ (cleanCache m now).length
    · simp only [h2, if_true]
      exact CacheWF_drop _ _ (CacheWF_filter _ _ h)
    · simp only [h2, if_false]
      exact CacheWF_filter _ _ h
  · simp only [h1, if_false]
    exact h

theorem cacheLookup_wf (m : VCache) (url : String) (r : ValidationResult) (e : Nat)
    (h : CacheWF m) (hl : cacheLookup m url = some (r, e)) : r.url = url ∧ ResultWF r := by
  unfold cacheLookup at hl
  rcases hf : List.find? (fun p => p.1 == url) m with _ | p
  · rw [hf] at hl
    simp at hl
  · rw [hf] at hl
    simp only [Option.map_some'] at hl
    have hl2 : p.2 = (r, e) := by simpa using hl
    have hmem := List.mem_of_find?_eq_some hf
    have hkey : p.1 = url := by simpa using List.find?_some hf
    have hwf := h p hmem
    rw [hl2] at hwf
    exact ⟨by rw [← hkey]; exact hwf.1, hwf.2⟩

theorem ResultWF_mkFail (url : String) (now : Nat) (le : Option String) :
    ResultWF (mkFailResult url now le) := by
  simp [ResultWF, mkFailResult]

/-- The retry loop always returns a result for the probed URL that is
valid exactly when no error is recorded, and preserves cache
well-formedness — provided the redirect continuation does. -/
theorem runAttempts_wf (net : Net) (now : Nat) (url : String)
    (recurse : Option (String → VState → ValidationResult × VState)) (retries : Nat)
    (hrec : ∀ f, recurse = some f → ∀ u s, CacheWF s.cache →
      ((f u s).1.url = u ∧ ResultWF (f u s).1 ∧ CacheWF (f u s).2.cache)) :
    ∀ remaining attempt le st, CacheWF st.cache →
      ((runAttempts net now url recurse retries remaining attempt le st).1.url = url
      ∧ ResultWF (runAttempts net now url recurse retries remaining attempt le st).1
      ∧ CacheWF (runAttempts net now url recurse retries remaining attempt le st).2.cache) := by
  intro remaining
  induction remaining with
  | zero =>
    intro attempt le st hwf
    simp only [runAttempts]
    exact ⟨rfl, ResultWF_mkFail _ _ _,
      CacheWF_setCache _ _ _ _ hwf rfl (ResultWF_mkFail _ _ _)⟩
  | succ n ih =>
    intro attempt le st hwf
    simp only [runAttempts]
    rcases hdf : doFetch net url attempt st.log with ⟨out, log1⟩
    cases out with
    | resp status loc =>
      by_cases h3xx : 300 ≤ status ∧ status < 400
      · by_cases hloc : loc = none ∨ loc = some ""
        · simp only [hdf, h3xx, and_self, if_true, hloc]
          refine ⟨trivial, by simp [ResultWF], ?_⟩
          exact CacheWF_setCache _ _ _ _ hwf rfl (by simp [ResultWF])
        · cases hrec2 : recurse with
          | none =>
            simp only [hdf, h3xx, and_self, if_true, hloc, if_false, hrec2]
            refine ⟨trivial, by simp [ResultWF], ?_⟩
            exact CacheWF_setCache _ _ _ _ hwf rfl (by simp [ResultWF])
          | some follow =>
            simp only [hdf, h3xx, and_self, if_true, hloc, if_false, hrec2]
            have hin := hrec follow hrec2 (resolveRedirect url (loc.getD ""))
              { st with log := log1 } hwf
            have hwfr : ResultWF
                { url := url,
                  valid := (follow (resolveRedirect url (loc.getD ""))
                    { st with log := log1 }).1.valid,
                  status := status,
                  finalUrl := some (jsOrStr (follow (resolveRedirect url (loc.getD ""))
                    { st with log := log1 }).1.finalUrl (resolveRedirect url (loc.getD ""))),
                  error := (follow (resolveRedirect url (loc.getD ""))
                    { st with log := log1 }).1.error,
                  checkedAt := now } := hin.2.1
            exact ⟨trivial, hwfr, CacheWF_setCache _ _ _ _ hin.2.2 rfl hwfr⟩
      · simp only [hdf, h3xx, if_false]
        have hwfr : ResultWF
            { url := url, valid := decide (200 ≤ status ∧ status < 300), status := status,
              error := if decide (200 ≤ status ∧ status < 300) then none
                else some ("HTTP " ++ toString status),
              checkedAt := now } := by
          by_cases hc : 200 ≤ status ∧ status < 300 <;> simp [ResultWF, hc]
        exact ⟨trivial, hwfr, CacheWF_setCache _ _ _ _ hwf rfl hwfr⟩
    | netError msg =>
      simp only [hdf]
      exact ih _ _ { st with log := log1 } hwf
    | abortError =>
      simp only [hdf]
      exact ⟨rfl, ResultWF_mkFail _ _ _,
        CacheWF_setCache _ _ _ _ hwf rfl (ResultWF_mkFail _ _ _)⟩
    | httpFail msg =>
      simp only [hdf]
      exact ih _ _ { st with log := log1 } hwf
    | unexpected msg =>
      simp only [hdf]
      exact ⟨rfl, ResultWF_mkFail _ _ _,
        CacheWF_setCache _ _ _ _ hwf rfl (ResultWF_mkFail _ _ _)⟩

theorem getCached_snd_wf (m : VCache) (url : String) (now : Nat) (h : CacheWF m) :
    CacheWF (getCached m url now).2 := by
  unfold getCached
  rcases hl : cacheLookup m url with _ | ⟨r, e⟩
  · exact CacheWF_filter _ _ h
  · by_cases hn : now < e
    · simp only [hn, if_true]
      exact h
    · simp only [hn, if_false]
      exact CacheWF_filter _ _ h

theorem validateUrlCore_wf (net : Net) (now retries : Nat) :
    ∀ mr url st, CacheWF st.cache →
      ((validateUrlCore net now retries mr url st).1.url = url
      ∧ ResultWF (validateUrlCore net now retries mr url st).1
      ∧ CacheWF (validateUrlCore net now retries mr url st).2.cache) := by
  intro mr
  induction mr with
  | zero =>
    intro url st hwf
    rw [validateUrlCore_eq]
    unfold validateStep
    rcases hg : getCached st.cache url now with ⟨o, c⟩
    have hcwf : CacheWF c := by
      have := getCached_snd_wf st.cache url now hwf
      rw [hg] at this
      exact this
    cases o with
    | some r =>
      have : (getCached st.cache url now).1 = some r := by rw [hg]
      unfold getCached at this
      rcases hl : cacheLookup st.cache url with _ | ⟨r2, e⟩
      · rw [hl] at this
        simp at this
      · rw [hl] at this
        by_cases hn : now < e
        · simp only [hn, if_true, Option.some.injEq] at this
          subst this
          obtain ⟨h1, h2⟩ := cacheLookup_wf st.cache url r2 e hwf hl
          exact ⟨h1, h2, hcwf⟩
        · simp [hn] at this
    | none =>
      exact runAttempts_wf net now url (redirectFollower net now retries 0) retries
        (by intro f hf; simp [redirectFollower] at hf) (retries + 1) 0 none
        { st with cache := c } hcwf
  | succ m ih =>
    intro url st hwf
    rw [validateUrlCore_eq]
    unfold validateStep
    rcases hg : getCached st.cache url now with ⟨o, c⟩
    have hcwf : CacheWF c := by
      have := getCached_snd_wf st.cache url now hwf
      rw [hg] at this
      exact this
    cases o with
    | some r =>
      have : (getCached st.cache url now).1 = some r := by rw [hg]
      unfold getCached at this
      rcases hl : cacheLookup st.cache url with _ | ⟨r2, e⟩
      · rw [hl] at this
        simp at this
      · rw [hl] at this
        by_cases hn : now < e
        · simp only [hn, if_true, Option.some.injEq] at this
          subst this
          obtain ⟨h1, h2⟩ := cacheLookup_wf st.cache url r2 e hwf hl
          exact ⟨h1, h2, hcwf⟩
        · simp [hn] at this
    | none =>
      exact runAttempts_wf net now url (redirectFollower net now retries (m + 1)) retries
        (by
          intro f hf u s hswf
          simp only [redirectFollower, Option.some.injEq] at hf
          rw [← hf]
          exact ih u s hswf)
        (retries + 1) 0 none { st with cache := c } hcwf

/-- The retry loop on a URL whose every probe attempt errors: the result
is invalid, with status 0 and a populated error. -/
theorem runAttempts_allErr (net : Net) (now : Nat) (url : String)
    (recurse : Option (String → VState → ValidationResult × VState)) (retries : Nat)
    (herr : ∀ a, (net.head url a).isErr = true) :
    ∀ remaining attempt le st,
      ((runAttempts net now url recurse retries remaining attempt le st).1.valid = false
      ∧ (runAttempts net now url recurse retries remaining attempt le st).1.status = 0
      ∧ (runAttempts net now url recurse retries remaining attempt le st).1.error.isSome
          = true) := by
  intro remaining
  induction remaining with
  | zero =>
    intro attempt le st
    simp only [runAttempts]
    exact ⟨rfl, rfl, by simp [mkFailResult]⟩
  | succ n ih =>
    intro attempt le st
    simp only [runAttempts]
    cases hh : net.head url attempt with
    | resp s loc =>
      have hcon := herr attempt
      rw [hh] at hcon
      simp [FetchOutcome.isErr] at hcon
    | netError msg =>
      simp only [doFetch, hh]
      exact ih _ _ { st with log := st.log ++ [url] }
    | abortError =>
      simp only [doFetch, hh]
      exact ⟨rfl, rfl, by simp [mkFailResult]⟩
    | httpFail msg =>
      simp only [doFetch, hh]
      exact ih _ _ { st with log := st.log ++ [url] }
    | unexpected msg =>
      simp only [doFetch, hh]
      exact ⟨rfl, rfl, by simp [mkFailResult]⟩

/-- C6: `validateUrl` fails closed.  Over a well-formed cache, the result
is valid exactly when no error is recorded and always carries the probed
URL; and whenever every probe attempt for the URL errors out (network
error, timeout/abort, or the malformed-URL `TypeError` that `fetch`
raises), the uncached result is `valid = false` with status 0 and a
populated error — the embedding is total, so no exception crosses the
boundary. -/
theorem validateUrl_fails_closed (net : Net) (now : Nat) (url : String)
    (opts : ValidationOptions) (st : VState) (hwf : CacheWF st.cache) :
    ((validateUrl net now url opts st).1.valid = true
      ↔ (validateUrl net now url opts st).1.error = none)
    ∧ (validateUrl net now url opts st).1.url = url
    ∧ CacheWF (validateUrl net now url opts st).2.cache
    ∧ (cacheLookup st.cache url = none → (∀ a, (net.head url a).isErr = true) →
        (validateUrl net now url opts st).1.valid = false
        ∧ (validateUrl net now url opts st).1.status = 0
        ∧ (validateUrl net now url opts st).1.error.isSome = true) := by
  obtain ⟨h1, h2, h3⟩ := validateUrlCore_wf net now (opts.retries.getD DEFAULT_RETRIES)
    (opts.maxRedirects.getD DEFAULT_MAX_REDIRECTS) url st hwf
  refine ⟨h2, h1, h3, ?_⟩
  intro hmiss herr
  unfold validateUrl
  rw [validateUrlCore_eq, validateStep_miss _ _ _ _ _ _ hmiss]
  exact runAttempts_allErr net now url _ _ herr _ _ _ _

def netErrW : Net := ⟨fun _ _ => .netError "getaddrinfo ENOTFOUND", fun _ _ => .abortError⟩

theorem validateUrl_fails_closed_witness :
    ((validateUrl netErrW 0 "notaurl" {} ⟨[], []⟩).1.valid = true
      ↔ (validateUrl netErrW 0 "notaurl" {} ⟨[], []⟩).1.error = none)
    ∧ (validateUrl netErrW 0 "notaurl" {} ⟨[], []⟩).1.url = "notaurl"
    ∧ CacheWF (validateUrl netErrW 0 "notaurl" {} ⟨[], []⟩).2.cache
    ∧ (cacheLookup ([] : VCache) "notaurl" = none →
        (∀ a, (netErrW.head "notaurl" a).isErr = true) →
        (validateUrl netErrW 0 "notaurl" {} ⟨[], []⟩).1.valid = false
        ∧ (validateUrl netErrW 0 "notaurl" {} ⟨[], []⟩).1.status = 0
        ∧ (validateUrl netErrW 0 "notaurl" {} ⟨[], []⟩).1.error.isSome = true) :=
  validateUrl_fails_closed netErrW 0 "notaurl" {} ⟨[], []⟩ CacheWF_nil

/-! ## Claim C8: batch validation -/

theorem validateUrl_wf (net : Net) (now : Nat) (url : String) (opts : ValidationOptions)
    (st : VState) (hwf : CacheWF st.cache) :
    ((validateUrl net now url opts st).1.url = url
    ∧ ResultWF (validateUrl net now url opts st).1
    ∧ CacheWF (validateUrl net now url opts st).2.cache) :=
  validateUrlCore_wf net now _ _ url st hwf

theorem validateSeq_append (net : Net) (now : Nat) (opts : ValidationOptions) :
    ∀ (a b : List String) (st : VState),
      validateSeq net now opts (a ++ b) st
        = ((validateSeq net now opts a st).1
              ++ (validateSeq net now opts b (validateSeq net now opts a st).2).1,
           (validateSeq net now opts b (validateSeq net now opts a st).2).2) := by
  intro a
  induction a with
  | nil =>
    intro b st
    rfl
  | cons u us ih =>
    intro b st
    simp only [List.cons_append, validateSeq, List.append_eq, ih]

theorem validateBatchesAux_eq_seq (net : Net) (now : Nat) (opts : ValidationOptions)
    (conc : Nat) (hc : 1 ≤ conc) :
    ∀ fuel urls st, urls.length ≤ fuel →
      validateBatchesAux net now opts conc fuel urls st = validateSeq net now opts urls st := by
  intro fuel
  induction fuel with
  | zero =>
    intro urls st h
    cases urls with
    | nil => rfl
    | cons u us => simp at h
  | succ n ih =>
    intro urls st h
    cases urls with
    | nil => rfl
    | cons u us =>
      simp only [validateBatchesAux]
      rw [ih ((u :: us).drop conc) _ (by
        simp only [List.length_drop, List.length_cons]
        simp only [List.length_cons] at h
        omega)]
      conv_rhs => rw [← List.take_append_drop conc (u :: us), validateSeq_append]

theorem validateSeq_spec (net : Net) (now : Nat) (opts : ValidationOptions) :
    ∀ (urls : List String) (st : VState), CacheWF st.cache →
      ((validateSeq net now opts urls st).1.map (fun r => r.url) = urls
      ∧ CacheWF (validateSeq net now opts urls st).2.cache) := by
  intro urls
  induction urls with
  | nil =>
    intro st h
    exact ⟨rfl, h⟩
  | cons u us ih =>
    intro st h
    obtain ⟨h1, _, h3⟩ := validateUrl_wf net now u opts st h
    obtain ⟨h4, h5⟩ := ih (validateUrl net now u opts st).2 h3
    simp only [validateSeq, List.map_cons]
    exact ⟨by rw [h1, h4], h5⟩

/-- C8: `validateUrls` returns one result per input URL in input order
(the i-th result is the validation of the i-th URL), processing the list
in sequential chunks of `options.concurrency` (default 10) with each chunk
completed before the next starts — so the output equals the purely
sequential left-to-right processing of the whole list.  (`concurrency ≥ 1`:
the source loop does not terminate on a non-positive concurrency.) -/
theorem validateUrls_order_preserved (net : Net) (now : Nat) (urls : List String)
    (opts : ValidationOptions) (st : VState)
    (hconc : 1 ≤ opts.concurrency.getD DEFAULT_CONCURRENCY)
    (hwf : CacheWF st.cache) :
    (validateUrls net now urls opts st).1.length = urls.length
    ∧ (validateUrls net now urls opts st).1.map (fun r => r.url) = urls
    ∧ (validateUrls net now urls opts st).1
        = (validateSeq net now opts urls ⟨cleanCache st.cache now, st.log⟩).1 := by
  have hwf2 : CacheWF (cleanCache st.cache now) := CacheWF_filter _ _ hwf
  cases urls with
  | nil => exact ⟨rfl, rfl, rfl⟩
  | cons u us =>
    have hub : validateUrls net now (u :: us) opts st
        = validateBatchesAux net now opts (opts.concurrency.getD DEFAULT_CONCURRENCY)
            (u :: us).length (u :: us) ⟨cleanCache st.cache now, st.log⟩ := rfl
    rw [hub, validateBatchesAux_eq_seq net now opts _ hconc _ _ _ (le_refl _)]
    obtain ⟨hm, _⟩ := validateSeq_spec net now opts (u :: us)
      ⟨cleanCache st.cache now, st.log⟩ hwf2
    refine ⟨?_, hm, rfl⟩
    have := congrArg List.length hm
    simpa using this

def netBatchW : Net := ⟨fun _ _ => .resp 204 none, fun _ _ => .resp 204 none⟩

theorem validateUrls_order_preserved_witness :
    (validateUrls netBatchW 0 ["https://w.aa/1", "https://w.aa/2"] {} ⟨[], []⟩).1.length
        = (["https://w.aa/1", "https://w.aa/2"] : List String).length
    ∧ (validateUrls netBatchW 0 ["https://w.aa/1", "https://w.aa/2"] {} ⟨[], []⟩).1.map
          (fun r => r.url)
        = ["https://w.aa/1", "https://w.aa/2"]
    ∧ (validateUrls netBatchW 0 ["https://w.aa/1", "https://w.aa/2"] {} ⟨[], []⟩).1
        = (validateSeq netBatchW 0 {} ["https://w.aa/1", "https://w.aa/2"]
            ⟨cleanCache [] 0, []⟩).1 :=
  validateUrls_order_preserved netBatchW 0 ["https://w.aa/1", "https://w.aa/2"] {} ⟨[], []⟩
    (by decide) CacheWF_nil

/-! ## Claim C9: the topic result cache -/

theorem storeGet_storeSet_self (s : TopicStore) (k : String) (v : CachedContent) :
    storeGet (storeSet s k v) k = some v := by
  unfold storeSet storeGet
  by_cases h : s.any (fun p => p.1 == k)
  · simp only [h, if_true, List.find?_map]
    have hpred : ((fun p : String × CachedContent => p.1 == k) ∘
        (fun p => if p.1 == k then (k, v) else p))
        = fun p : String × CachedContent => p.1 == k := by
      funext p
      by_cases hp : p.1 = k <;> simp [hp]
    rw [hpred]
    obtain ⟨p0, hp0, hp0k⟩ := List.any_eq_true.mp h
    have hsome : (List.find? (fun p : String × CachedContent => p.1 == k) s).isSome :=
      List.find?_isSome.mpr ⟨p0, hp0, hp0k⟩
    obtain ⟨q, hq⟩ := Option.isSome_iff_exists.mp hsome
    have hqk : q.1 = k := by simpa using List.find?_some hq
    simp [hq, hqk]
  · simp only [h, if_false, List.find?_append]
    have hfalse : (s.any fun p => p.1 == k) = false := Bool.eq_false_iff.mpr h
    have hnone : List.find? (fun p : String × CachedContent => p.1 == k) s = none :=
      List.find?_eq_none.mpr (List.any_eq_false.mp hfalse)
    simp [hnone, List.find?]

theorem storeGet_storeDelete_self (s : TopicStore) (k : String) :
    storeGet (storeDelete s k) k = none := by
  unfold storeDelete storeGet
  have : List.find? (fun p : String × CachedContent => p.1 == k)
      (s.filter (fun p => !(p.1 == k))) = none := by
    rw [List.find?_eq_none]
    intro x hx
    have := (List.mem_filter.mp hx).2
    simp at this
    simp [this]
  simp [this]

/-- C9: writing a record with `cacheContent` and reading it back
immediately with `getCachedContent` (same normalized topic key) returns
exactly the document set written, regardless of any prior record under the
key (a put is a total overwrite); reading after the 24-hour TTL treats the
record as absent, returns none, and removes it from the store.  The md5
digest is an arbitrary `hashFn` of the case-folded whitespace-normalized
topic. -/
theorem topicCache_put_get (hashFn : String → String) (now now2 : Nat) (store : TopicStore)
    (topic : String) (urls : List String) (docs : List ScrapedContent)
    (hlate : now + CACHE_TTL_MS < now2) :
    getCachedContent hashFn now (cacheContent hashFn now store topic urls docs) topic
      = (some
          { topic := topic, urls := urls, content := docs, cachedAt := now,
            expiresAt := now + CACHE_TTL_MS },
         cacheContent hashFn now store topic urls docs)
    ∧ (getCachedContent hashFn now2 (cacheContent hashFn now store topic urls docs) topic).1
        = none
    ∧ storeGet (getCachedContent hashFn now2 (cacheContent hashFn now store topic urls docs)
          topic).2 (generateCacheKey hashFn topic) = none := by
  have hget := storeGet_storeSet_self store (generateCacheKey hashFn topic)
    { topic := topic, urls := urls, content := docs, cachedAt := now,
      expiresAt := now + CACHE_TTL_MS }
  simp only [getCachedContent, cacheContent]
  rw [hget]
  simp only []
  rw [if_neg (by omega), if_pos (by omega)]
  exact ⟨rfl, rfl, storeGet_storeDelete_self _ _⟩

def docW9 : ScrapedContent := { url := "u", markdown := "m", success := true }

def recW9 : CachedContent :=
  { topic := "  My Topic ", urls := ["u"], content := [docW9], cachedAt := 0,
    expiresAt := 0 + CACHE_TTL_MS }

theorem topicCache_put_get_witness :
    getCachedContent (fun s => s) 0
        (cacheContent (fun s => s) 0 [] "  My Topic " ["u"] [docW9]) "  My Topic "
      = (some recW9, cacheContent (fun s => s) 0 [] "  My Topic " ["u"] [docW9])
    ∧ (getCachedContent (fun s => s) 86400001
          (cacheContent (fun s => s) 0 [] "  My Topic " ["u"] [docW9]) "  My Topic ").1 = none
    ∧ storeGet (getCachedContent (fun s => s) 86400001
          (cacheContent (fun s => s) 0 [] "  My Topic " ["u"] [docW9]) "  My Topic ").2
          (generateCacheKey (fun s => s) "  My Topic ") = none :=
  topicCache_put_get (fun s => s) 0 86400001 [] "  My Topic " ["u"] [docW9] (by decide)

/-! ## Claim C1: crawl bounds -/

theorem contains_iff_mem (s : List String) (x : String) : s.contains x = true ↔ x ∈ s :=
  List.elem_iff

theorem setAdd_length_le (s : List String) (x : String) : (setAdd s x).length ≤ s.length + 1 := by
  unfold setAdd
  split <;> simp

theorem foldl_setAdd_length (l : List String) :
    ∀ s : List String, (l.foldl setAdd s).length ≤ s.length + l.length := by
  induction l with
  | nil =>
    intro s
    simp
  | cons x xs ih =>
    intro s
    simp only [List.foldl_cons, List.length_cons]
    have h1 := ih (setAdd s x)
    have h2 := setAdd_length_le s x
    omega

theorem addCommonPaths_length (crawled : List String) (paths : List String) :
    ∀ acc, (addCommonPaths crawled acc paths).length ≤ max acc.length MAX_TOTAL_URLS := by
  unfold addCommonPaths
  induction paths with
  | nil =>
    intro acc
    simp
  | cons p ps ih =>
    intro acc
    simp only [List.foldl_cons]
    by_cases hc : (!(crawled.contains p) && !(acc.contains p)
        && decide (acc.length < MAX_TOTAL_URLS)) = true
    · rw [if_pos hc]
      have hlt : acc.length < MAX_TOTAL_URLS := by
        simp only [Bool.and_eq_true, decide_eq_true_eq] at hc
        exact hc.2
      have h1 := ih (acc ++ [p])
      simp only [List.length_append, List.length_singleton] at h1
      omega
    · rw [if_neg hc]
      exact ih acc

theorem setAdd_nodup (s : List String) (x : String) (h : s.Nodup) : (setAdd s x).Nodup := by
  unfold setAdd
  by_cases hc : s.contains x = true
  · rw [if_pos hc]
    exact h
  · rw [if_neg hc]
    rw [List.nodup_append]
    refine ⟨h, List.nodup_singleton x, ?_⟩
    intro a ha hb
    have hax : a = x := by simpa using hb
    subst hax
    exact hc ((contains_iff_mem s a).mpr ha)

theorem foldl_setAdd_nodup (l : List String) :
    ∀ s : List String, s.Nodup → (l.foldl setAdd s).Nodup := by
  induction l with
  | nil =>
    intro s h
    exact h
  | cons x xs ih =>
    intro s h
    exact ih _ (setAdd_nodup s x h)

theorem addCommonPaths_nodup (crawled : List String) (paths : List String) :
    ∀ acc, acc.Nodup → (addCommonPaths crawled acc paths).Nodup := by
  unfold addCommonPaths
  induction paths with
  | nil =>
    intro acc h
    exact h
  | cons p ps ih =>
    intro acc h
    simp only [List.foldl_cons]
    apply ih
    by_cases hc : (!(crawled.contains p) && !(acc.contains p)
        && decide (acc.length < MAX_TOTAL_URLS)) = true
    · rw [if_pos hc]
      rw [List.nodup_append]
      refine ⟨h, List.nodup_singleton p, ?_⟩
      intro a ha hb
      have hap : a = p := by simpa using hb
      subst hap
      simp only [Bool.and_eq_true, Bool.not_eq_true'] at hc
      have hcontains := (contains_iff_mem acc a).mpr ha
      rw [hc.1.2] at hcontains
      exact Bool.false_ne_true hcontains
    · rw [if_neg hc]
      exact h

theorem mem_setAdd_self (s : List String) (x : String) : x ∈ setAdd s x := by
  unfold setAdd
  by_cases hc : s.contains x = true
  · rw [if_pos hc]
    exact (contains_iff_mem s x).mp hc
  · rw [if_neg hc]
    simp

theorem mem_setAdd_of_mem (s : List String) (x y : String) (h : y ∈ s) : y ∈ setAdd s x := by
  unfold setAdd
  split
  · exact h
  · simp [h]

/-- Every branch of `processPhase1` records the document URL as crawled
(and nothing else changes the visited set). -/
theorem processPhase1_crawled_eq (st : CrawlState) (c : ScrapedContent) :
    (processPhase1 st c).crawledUrls = setAdd st.crawledUrls c.url := by
  unfold processPhase1
  split
  · rfl
  · split
    · simp only []
      rw [apply_ite (fun s : CrawlState => s.crawledUrls)]
      simp only [ite_self]
    · rfl

/-- The per-document enqueue step: up to 8 links from extraction, and then
common paths only while below the global ceiling. -/
theorem enqueue_length_bound (all crawled v paths : List String) :
    (if v.length < 3 then
        addCommonPaths crawled ((v.take MAX_PAGES_PER_URL).foldl setAdd all) paths
      else (v.take MAX_PAGES_PER_URL).foldl setAdd all).length
      ≤ max all.length MAX_TOTAL_URLS + MAX_PAGES_PER_URL := by
  have hfold : ((v.take MAX_PAGES_PER_URL).foldl setAdd all).length
      ≤ all.length + MAX_PAGES_PER_URL := by
    refine le_trans (foldl_setAdd_length _ _) ?_
    have := List.length_take MAX_PAGES_PER_URL v
    omega
  split
  · have := addCommonPaths_length crawled paths ((v.take MAX_PAGES_PER_URL).foldl setAdd all)
    omega
  · omega

theorem processPhase1_allUrls_length (st : CrawlState) (c : ScrapedContent) :
    (processPhase1 st c).allUrls.length
      ≤ max st.allUrls.length MAX_TOTAL_URLS + MAX_PAGES_PER_URL := by
  unfold processPhase1
  split
  · simp only
    omega
  · split
    · simp only []
      rw [apply_ite (fun s : CrawlState => s.allUrls)]
      simp only []
      exact enqueue_length_bound _ _ _ _
    · simp only
      omega

theorem processPhase1_allUrls_nodup (st : CrawlState) (c : ScrapedContent)
    (h : st.allUrls.Nodup) : (processPhase1 st c).allUrls.Nodup := by
  unfold processPhase1
  split
  · exact h
  · split
    · simp only []
      rw [apply_ite (fun s : CrawlState => s.allUrls)]
      simp only []
      split
      · exact addCommonPaths_nodup _ _ _ (foldl_setAdd_nodup _ _ h)
      · exact foldl_setAdd_nodup _ _ h
    · exact h

theorem foldl_processPhase1_length (cs : List ScrapedContent) :
    ∀ st : CrawlState, ((cs.foldl processPhase1 st).allUrls.length
      ≤ max st.allUrls.length MAX_TOTAL_URLS + MAX_PAGES_PER_URL * cs.length) := by
  induction cs with
  | nil =>
    intro st
    simp only [List.foldl_nil, List.length_nil, Nat.mul_zero]
    omega
  | cons c cs ih =>
    intro st
    simp only [List.foldl_cons, List.length_cons]
    have h1 := processPhase1_allUrls_length st c
    have h2 := ih (processPhase1 st c)
    have h3 : MAX_PAGES_PER_URL * (cs.length + 1)
        = MAX_PAGES_PER_URL * cs.length + MAX_PAGES_PER_URL := by ring
    omega

theorem foldl_processPhase1_nodup (cs : List ScrapedContent) :
    ∀ st : CrawlState, st.allUrls.Nodup → (cs.foldl processPhase1 st).allUrls.Nodup := by
  induction cs with
  | nil =>
    intro st h
    exact h
  | cons c cs ih =>
    intro st h
    exact ih _ (processPhase1_allUrls_nodup st c h)

theorem foldl_processPhase1_crawled_mono (cs : List ScrapedContent) :
    ∀ (st : CrawlState) (x : String), x ∈ st.crawledUrls
      → x ∈ (cs.foldl processPhase1 st).crawledUrls := by
  induction cs with
  | nil =>
    intro st x h
    exact h
  | cons c cs ih =>
    intro st x h
    apply ih
    rw [processPhase1_crawled_eq]
    exact mem_setAdd_of_mem _ _ _ h

theorem foldl_processPhase1_crawled_mem (cs : List ScrapedContent) :
    ∀ (st : CrawlState) (c : ScrapedContent), c ∈ cs
      → c.url ∈ (cs.foldl processPhase1 st).crawledUrls := by
  induction cs with
  | nil =>
    intro st c h
    cases h
  | cons c0 cs ih =>
    intro st c h
    simp only [List.foldl_cons]
    rcases List.mem_cons.mp h with h1 | h2
    · subst h1
      apply foldl_processPhase1_crawled_mono
      rw [processPhase1_crawled_eq]
      exact mem_setAdd_self _ _
    · exact ih _ _ h2

theorem crawlPhase1_allUrls_length (fetch : Fetcher) (seeds : List String)
    (hlen : (fetch.scrape (seeds.take 5)).length ≤ 5) :
    (crawlPhase1 fetch seeds).allUrls.length
      ≤ max seeds.length MAX_TOTAL_URLS + 5 * MAX_PAGES_PER_URL := by
  unfold crawlPhase1
  simp only []
  have h1 := foldl_processPhase1_length (fetch.scrape (seeds.take 5))
    ⟨seeds.foldl setAdd [], [], [], []⟩
  have h2 : (seeds.foldl setAdd []).length ≤ seeds.length := by
    have := foldl_setAdd_length seeds []
    simpa using this
  simp only at h1
  have h3 : MAX_PAGES_PER_URL * (fetch.scrape (seeds.take 5)).length
      ≤ 5 * MAX_PAGES_PER_URL := by
    have : MAX_PAGES_PER_URL * (fetch.scrape (seeds.take 5)).length
        ≤ MAX_PAGES_PER_URL * 5 := Nat.mul_le_mul_left _ hlen
    omega
  omega

theorem crawlPhase1_crawled (fetch : Fetcher) (seeds : List String)
    (hurl : ∀ urls, (fetch.scrape urls).map (fun c => c.url) = urls) :
    ∀ u ∈ seeds.take 5, u ∈ (crawlPhase1 fetch seeds).crawledUrls := by
  intro u hu
  unfold crawlPhase1
  have hmem : u ∈ (fetch.scrape (seeds.take 5)).map (fun c => c.url) := by
    rw [hurl (seeds.take 5)]
    exact hu
  obtain ⟨c, hc, hcu⟩ := List.mem_map.mp hmem
  rw [← hcu]
  exact foldl_processPhase1_crawled_mem _ _ _ hc

theorem crawlPhase1_allUrls_nodup (fetch : Fetcher) (seeds : List String) :
    (crawlPhase1 fetch seeds).allUrls.Nodup := by
  unfold crawlPhase1
  exact foldl_processPhase1_nodup _ _ (foldl_setAdd_nodup seeds [] List.nodup_nil)

/-- C1 (amended): per source document, at most `MAX_PAGES_PER_URL = 8`
extracted links are enqueued, and the common-path fallback enqueues only
while the URL set is below `MAX_TOTAL_URLS = 25` — so one document grows
the set by at most 8 beyond `max(|set|, 25)`, and a whole crawl stays
within `max(|seeds|, 25) + 5 * 8` (the set is NOT capped at 25, see the
counterexample); and, for distinct seeds and a Fetcher answering one
document per requested URL, no URL is fetched twice across the two
phases. -/
theorem recursiveCrawl_bounds (fetch : Fetcher) (seeds : List String)
    (hurl : ∀ urls, (fetch.scrape urls).map (fun c => c.url) = urls)
    (hnodup : seeds.Nodup) :
    (∀ st c, (processPhase1 st c).allUrls.length
        ≤ max st.allUrls.length MAX_TOTAL_URLS + MAX_PAGES_PER_URL)
    ∧ (crawlPhase1 fetch seeds).allUrls.length
        ≤ max seeds.length MAX_TOTAL_URLS + 5 * MAX_PAGES_PER_URL
    ∧ (seeds.take 5 ++ phase2Urls (crawlPhase1 fetch seeds)).Nodup := by
  refine ⟨processPhase1_allUrls_length, ?_, ?_⟩
  · apply crawlPhase1_allUrls_length
    have hl := congrArg List.length (hurl (seeds.take 5))
    simp only [List.length_map] at hl
    rw [hl]
    have := List.length_take 5 seeds
    omega
  · rw [List.nodup_append]
    refine ⟨(List.take_sublist 5 seeds).nodup hnodup, ?_, ?_⟩
    · exact (crawlPhase1_allUrls_nodup fetch seeds).filter _
    · intro u hu hu2
      unfold phase2Urls at hu2
      have hnc := (List.mem_filter.mp hu2).2
      have hmem := crawlPhase1_crawled fetch seeds hurl u hu
      simp only [Bool.not_eq_true'] at hnc
      have hcontains := (contains_iff_mem _ _).mpr hmem
      rw [hnc] at hcontains
      exact Bool.false_ne_true hcontains

def mdLinks1 : String :=
  "[x](/docs/n11)[x](/docs/n12)[x](/docs/n13)[x](/docs/n14)[x](/docs/n15)[x](/docs/n16)[x](/docs/n17)[x](/docs/n18)"

def mdLinks2 : String :=
  "[x](/docs/n21)[x](/docs/n22)[x](/docs/n23)[x](/docs/n24)[x](/docs/n25)[x](/docs/n26)[x](/docs/n27)[x](/docs/n28)"

def mdLinks3 : String :=
  "[x](/docs/n31)[x](/docs/n32)[x](/docs/n33)[x](/docs/n34)[x](/docs/n35)[x](/docs/n36)[x](/docs/n37)[x](/docs/n38)"

def mdLinks4 : String :=
  "[x](/docs/n41)[x](/docs/n42)[x](/docs/n43)[x](/docs/n44)[x](/docs/n45)[x](/docs/n46)[x](/docs/n47)[x](/docs/n48)"

def mdLinks5 : String :=
  "[x](/docs/n51)[x](/docs/n52)[x](/docs/n53)[x](/docs/n54)[x](/docs/n55)[x](/docs/n56)[x](/docs/n57)[x](/docs/n58)"

def seedsC1 : List String :=
  ["https://a.aa/d1", "https://a.aa/d2", "https://a.aa/d3", "https://a.aa/d4", "https://a.aa/d5"]

/-- A Fetcher whose five seed documents each contain eight valuable
same-domain links. -/
def fetchDocC1 (u : String) : ScrapedContent :=
  { url := u, success := true, markdown :=
      if u = "https://a.aa/d1" then mdLinks1
      else if u = "https://a.aa/d2" then mdLinks2
      else if u = "https://a.aa/d3" then mdLinks3
      else if u = "https://a.aa/d4" then mdLinks4
      else if u = "https://a.aa/d5" then mdLinks5
      else "" }

def fetcherC1 : Fetcher := ⟨fun urls => urls.map fetchDocC1⟩

set_option maxRecDepth 8000 in
/-- C1 counterexample: five seeds whose pages each carry eight valuable
links drive the URL set to 45 entries — the crawl's `allUrls` exceeds the
claimed ceiling of `MAX_TOTAL_URLS = 25`, because the extracted-link
enqueue path never consults the ceiling. -/
theorem crawl_url_ceiling_counterexample :
    (crawlPhase1 fetcherC1 seedsC1).allUrls.length = 45
    ∧ MAX_TOTAL_URLS < (crawlPhase1 fetcherC1 seedsC1).allUrls.length := by
  constructor
  · decide
  · decide

theorem recursiveCrawl_bounds_witness :
    (crawlPhase1 fetcherC1 seedsC1).allUrls.length
        ≤ max seedsC1.length MAX_TOTAL_URLS + 5 * MAX_PAGES_PER_URL
    ∧ (seedsC1.take 5 ++ phase2Urls (crawlPhase1 fetcherC1 seedsC1)).Nodup :=
  ⟨(recursiveCrawl_bounds fetcherC1 seedsC1
      (by
        intro urls
        simp only [fetcherC1, List.map_map]
        rw [show ((fun c : ScrapedContent => c.url) ∘ fetchDocC1) = fun u => u from
          funext fun u => rfl]
        simp)
      (by decide)).2.1,
   (recursiveCrawl_bounds fetcherC1 seedsC1
      (by
        intro urls
        simp only [fetcherC1, List.map_map]
        rw [show ((fun c : ScrapedContent => c.url) ∘ fetchDocC1) = fun u => u from
          funext fun u => rfl]
        simp)
      (by decide)).2.2⟩

/-! ## Claim C3: the docs.example.com scenario -/

/-- The scenario Fetcher: the single seed page links to `/api`, `/guide`
and the cross-domain `https://other.com/x`. -/
def fetcherC3 : Fetcher :=
  ⟨fun urls => urls.map (fun u =>
    if u = "https://docs.example.com/start" then
      { url := u, markdown := "[A](/api) [B](/guide) [C](https://other.com/x)",
        success := true }
    else { url := u, markdown := "", success := false })⟩

set_option maxRecDepth 4000 in
/-- C3 counterexample: the queued-but-unvisited set after phase 1 is NOT
exactly {api, guide} — only two valuable links are found, so the
common-doc-path fallback fires and also queues `/guides` (among 16 other
synthesized paths). -/
theorem crawl_scenario_counterexample :
    "https://docs.example.com/guides"
        ∈ phase2Urls (crawlPhase1 fetcherC3 ["https://docs.example.com/start"])
    ∧ "https://docs.example.com/guides"
        ∉ ["https://docs.example.com/api", "https://docs.example.com/guide"] := by
  constructor
  · decide
  · decide

set_option maxRecDepth 4000 in
/-- C3 (amended): for the scenario seed, the queued-but-unvisited set
after phase 1 is `{api, guide}` TOGETHER WITH the 17 synthesized common
documentation paths at the seed's origin (the fallback fires because only
2 < 3 valuable links were found; `/api` and `/guide` are not re-added);
the cross-domain link is rejected (never queued); and both `/api` and
`/guide` are in the phase-2 fetch list. -/
theorem crawl_scenario_queued :
    phase2Urls (crawlPhase1 fetcherC3 ["https://docs.example.com/start"])
      = ["https://docs.example.com/api", "https://docs.example.com/guide",
         "https://docs.example.com/guides", "https://docs.example.com/reference",
         "https://docs.example.com/docs", "https://docs.example.com/documentation",
         "https://docs.example.com/getting-started", "https://docs.example.com/quickstart",
         "https://docs.example.com/tutorial", "https://docs.example.com/tutorials",
         "https://docs.example.com/examples", "https://docs.example.com/concepts",
         "https://docs.example.com/basics", "https://docs.example.com/overview",
         "https://docs.example.com/introduction", "https://docs.example.com/authentication",
         "https://docs.example.com/configuration", "https://docs.example.com/installation",
         "https://docs.example.com/setup"]
    ∧ "https://other.com/x"
        ∉ (crawlPhase1 fetcherC3 ["https://docs.example.com/start"]).allUrls
    ∧ "https://docs.example.com/api"
        ∈ phase2Urls (crawlPhase1 fetcherC3 ["https://docs.example.com/start"])
    ∧ "https://docs.example.com/guide"
        ∈ phase2Urls (crawlPhase1 fetcherC3 ["https://docs.example.com/start"]) := by
  refine ⟨by decide, by decide, by decide, by decide⟩

end SkillsGen
